import Mathlib

/-!
Verification of the birdnet-go detection-processing pipeline.

Each Go component relevant to the checked claims is shallowly embedded:
Go maps become association lists, `time.Time` / `time.Duration` become
integer nanoseconds, `float64` confidences become rationals, and fallible
Go functions return `Except`.  The definitions mirror the source
structure; the theorems settle the specification claims.
-/

namespace BirdnetGo

/-! ### Association-list model of Go maps -/

/-- Lookup in an association list, the model of a Go map read `m[k]`. -/
def lookupKey {α : Type} (k : String) : List (String × α) → Option α
  | [] => none
  | (k', v) :: rest => if k' = k then some v else lookupKey k rest

/-- Insert-or-replace in an association list, the model of a Go map write `m[k] = v`. -/
def upsertKey {α : Type} (k : String) (v : α) : List (String × α) → List (String × α)
  | [] => [(k, v)]
  | (k', v') :: rest => if k' = k then (k, v) :: rest else (k', v') :: upsertKey k v rest

theorem lookupKey_upsertKey_self {α : Type} (k : String) (v : α) (m : List (String × α)) :
    lookupKey k (upsertKey k v m) = some v := by
  induction m with
  | nil => simp [lookupKey, upsertKey]
  | cons p rest ih =>
    obtain ⟨k', v'⟩ := p
    by_cases h : k' = k
    · simp [lookupKey, upsertKey, h]
    · simp [lookupKey, upsertKey, h, ih]

theorem lookupKey_upsertKey_ne {α : Type} (k k' : String) (v : α) (m : List (String × α))
    (h : k' ≠ k) : lookupKey k' (upsertKey k v m) = lookupKey k' m := by
  have h' : ¬ k = k' := fun hk => h hk.symm
  induction m with
  | nil => simp [lookupKey, upsertKey, h']
  | cons p rest ih =>
    obtain ⟨k0, v0⟩ := p
    by_cases h0 : k0 = k
    · subst h0
      simp [lookupKey, upsertKey, h']
    · simp only [upsertKey, if_neg h0]
      by_cases h1 : k0 = k'
      · simp [lookupKey, h1]
      · simp [lookupKey, h1, ih]

theorem mem_upsertKey {α : Type} (k k' : String) (v v' : α) (m : List (String × α))
    (hmem : (k', v') ∈ upsertKey k v m) : (k', v') = (k, v) ∨ (k', v') ∈ m := by
  induction m with
  | nil => simpa [upsertKey] using hmem
  | cons p rest ih =>
    obtain ⟨k0, v0⟩ := p
    by_cases h0 : k0 = k
    · simp only [upsertKey, h0, if_pos rfl] at hmem
      rcases List.mem_cons.mp hmem with h | h
      · exact Or.inl h
      · exact Or.inr (List.mem_cons_of_mem _ h)
    · simp only [upsertKey, if_neg h0] at hmem
      rcases List.mem_cons.mp hmem with h | h
      · exact Or.inr (h ▸ List.mem_cons_self ..)
      · rcases ih h with h' | h'
        · exact Or.inl h'
        · exact Or.inr (List.mem_cons_of_mem _ h')

theorem lookupKey_mem {α : Type} (k : String) (v : α) (m : List (String × α))
    (hl : lookupKey k m = some v) : (k, v) ∈ m := by
  induction m with
  | nil => simp [lookupKey] at hl
  | cons p rest ih =>
    obtain ⟨k0, v0⟩ := p
    by_cases h0 : k0 = k
    · subst h0
      simp [lookupKey] at hl
      subst hl
      exact List.mem_cons_self ..
    · simp only [lookupKey, if_neg h0] at hl
      exact List.mem_cons_of_mem _ (ih hl)

/-! ### Time model -/

/-- Nanoseconds per second; `time.Second` in Go. -/
def nsPerSecond : Int := 1000000000

/-- ASCII lowering of one character, the relevant case of Go's `strings.ToLower`
for the species names the pipeline handles. -/
def toLowerChar (c : Char) : Char :=
  if 'A' ≤ c ∧ c ≤ 'Z' then Char.ofNat (c.toNat + 32) else c

/-- Model of Go's `strings.ToLower`. -/
def toLowerStr (s : String) : String := String.mk (s.toList.map toLowerChar)

/-- Builds the rational n/d in lowest terms directly, so that concrete
comparisons reduce inside the kernel (used only for witness data). -/
def qmk (n : Int) (d : Nat) : ℚ :=
  if h : d ≠ 0 ∧ n.natAbs.Coprime d then ⟨n, d, h.1, h.2⟩ else 0

/-! ### Detection processor (processor.go)

`datastore.Note`, `Detections` and `PendingDetection` are embedded with the
fields the pipeline reads or writes; timestamps are integer nanoseconds and
confidences are rationals.  Go's zero `time.Time` is modelled as `0`.
-/

/-- The fields of `datastore.Note` that the aggregation and flush paths use. -/
structure Note where
  commonName : String
  scientificName : String
  confidence : ℚ
  beginTime : Int
  deriving Repr, DecidableEq

/-- `Detections` from processor.go: the PCM clip plus the note of the best match. -/
structure Detections where
  pcmData3s : List Nat
  note : Note
  deriving Repr, DecidableEq

/-- `PendingDetection` from processor.go. -/
structure PendingDetection where
  detection : Detections
  confidence : ℚ
  source : String
  firstDetected : Int
  lastUpdated : Int
  flushDeadline : Int
  count : Nat
  deriving Repr, DecidableEq

/-- The pending-detections map, keyed by lowercased common name. -/
abbrev PendingMap := List (String × PendingDetection)

/-- The fixed 15 s debounce delay hard-coded in `processDetections`
(`const delay = 15 * time.Second`), in nanoseconds. -/
def pendingDelay : Int := 15 * nsPerSecond

/-- One iteration of the aggregation loop inside `processDetections`: a single
`Detections` value (with the `birdnet.Results` item's `Source` and `StartTime`,
and the wall clock `now` standing for `time.Now()`) is merged into the
pending-detections map.  A fresh Go `PendingDetection` literal leaves
`LastUpdated` at the zero `time.Time`, modelled as `0`; the existing-entry
branch touches `LastUpdated` only inside the higher-confidence test, exactly
as in the source. -/
def processOneDetection (source : String) (startTime now : Int) (detection : Detections)
    (m : PendingMap) : PendingMap :=
  let commonName := toLowerStr detection.note.commonName
  let confidence := detection.note.confidence
  match lookupKey commonName m with
  | some existing =>
      let existing1 :=
        if confidence > existing.confidence then
          { existing with
            detection := detection
            confidence := confidence
            source := source
            lastUpdated := now }
        else existing
      upsertKey commonName { existing1 with count := existing1.count + 1 } m
  | none =>
      upsertKey commonName
        { detection := detection
          confidence := confidence
          source := source
          firstDetected := startTime
          lastUpdated := 0
          flushDeadline := startTime + pendingDelay
          count := 1 } m

/-- `processDetections`: every detection returned by `processResults` for one
classifier item is folded into the pending-detections map. -/
def processDetections (source : String) (startTime now : Int) (detectionResults : List Detections)
    (m : PendingMap) : PendingMap :=
  detectionResults.foldl (fun acc d => processOneDetection source startTime now d acc) m

/-! ### Pending-detections flusher (processor.go) -/

/-- Go's `int(x)` conversion of a float: truncation toward zero, on rationals. -/
def goTrunc (q : ℚ) : Int := if q < 0 then ⌈q⌉ else ⌊q⌋

/-- The minimum-detections computation at the top of `pendingDetectionsFlusher`:
`segmentLength := math.Max(0.1, 3.0-overlap); minDetections := int(math.Max(1, 3/segmentLength))`. -/
def minDetectionsFromOverlap (overlap : ℚ) : Int :=
  let segmentLength : ℚ := max (1/10) (3 - overlap)
  goTrunc (max 1 (3 / segmentLength))

/-- The processor state and settings that `shouldDiscardDetection` and
`processApprovedDetection` consult.  `CheckDogBarkFilter` and
`getActionsForItem` live outside the provided sources, so they appear as
abstract functions; `lastHumanDetection` and `lastDogDetection` are the
side-channel maps written by `handleHumanDetection` / `handleDogDetection`. -/
structure FlusherSettings where
  privacyFilterEnabled : Bool
  dogBarkFilterEnabled : Bool
  lastHumanDetection : List (String × Int)
  lastDogDetection : List (String × Int)
  checkDogBarkFilter : String → Int → Bool
  actionsForItem : Detections → List Nat
  overlap : ℚ

/-- A task handed to the worker queue: one action id applied to one detection. -/
structure Task where
  detection : Detections
  action : Nat

/-- `shouldDiscardDetection`: the three-way discard test run at flush time.
A missing `LastDogDetection[source]` reads the Go zero `time.Time`, i.e. `0`. -/
def shouldDiscardDetection (p : FlusherSettings) (item : PendingDetection)
    (minDetections : Int) : Bool × String :=
  if (item.count : Int) < minDetections then
    (true, "false positive")
  else if p.privacyFilterEnabled &&
      (match lookupKey item.source p.lastHumanDetection with
       | some lastHumanDetection => decide (item.firstDetected < lastHumanDetection)
       | none => false) then
    (true, "privacy filter")
  else if p.dogBarkFilterEnabled &&
      (let lastDogDetection := (lookupKey item.source p.lastDogDetection).getD 0
       p.checkDogBarkFilter item.detection.note.commonName lastDogDetection ||
       p.checkDogBarkFilter item.detection.note.scientificName lastDogDetection) then
    (true, "recent dog bark")
  else
    (false, "")

/-- `processApprovedDetection`: set `BeginTime` to `FirstDetected` and enqueue
one task per planned action. -/
def processApprovedDetection (p : FlusherSettings) (item : PendingDetection) : List Task :=
  let det :=
    { item.detection with note := { item.detection.note with beginTime := item.firstDetected } }
  (p.actionsForItem det).map (fun action => { detection := det, action := action })

/-- One tick of `pendingDetectionsFlusher`: every entry whose deadline has
passed (`now.After(item.FlushDeadline)`) is removed, discarded entries emit
nothing, approved entries emit their tasks.  Returns the surviving map and
the emitted tasks. -/
def pendingDetectionsFlusherTick (p : FlusherSettings) (now : Int) :
    PendingMap → PendingMap × List Task
  | [] => ([], [])
  | (species, item) :: rest =>
    let r := pendingDetectionsFlusherTick p now rest
    if item.flushDeadline < now then
      if (shouldDiscardDetection p item (minDetectionsFromOverlap p.overlap)).1 then
        (r.1, r.2)
      else
        (r.1, processApprovedDetection p item ++ r.2)
    else
      ((species, item) :: r.1, r.2)

/-! ### Lookup lemmas for the aggregation step -/

/-- The map key under which a detection is aggregated. -/
def detectionKey (d : Detections) : String := toLowerStr d.note.commonName

theorem processOne_lookup_new (source : String) (startTime now : Int) (d : Detections)
    (m : PendingMap) (hl : lookupKey (detectionKey d) m = none) :
    lookupKey (detectionKey d) (processOneDetection source startTime now d m) =
      some { detection := d, confidence := d.note.confidence, source := source,
             firstDetected := startTime, lastUpdated := 0,
             flushDeadline := startTime + pendingDelay, count := 1 } := by
  simp [processOneDetection, detectionKey] at hl ⊢
  simp [hl, lookupKey_upsertKey_self]

theorem processOne_lookup_updated (source : String) (startTime now : Int) (d : Detections)
    (m : PendingMap) (e : PendingDetection) (hl : lookupKey (detectionKey d) m = some e) :
    lookupKey (detectionKey d) (processOneDetection source startTime now d m) =
      some (if d.note.confidence > e.confidence then
              { detection := d, confidence := d.note.confidence, source := source,
                firstDetected := e.firstDetected, lastUpdated := now,
                flushDeadline := e.flushDeadline, count := e.count + 1 }
            else { e with count := e.count + 1 }) := by
  simp [processOneDetection, detectionKey] at hl ⊢
  by_cases hc : d.note.confidence > e.confidence
  · simp [hl, hc, lookupKey_upsertKey_self]
  · simp [hl, hc, lookupKey_upsertKey_self]

theorem processOne_lookup_other (source : String) (startTime now : Int) (d : Detections)
    (m : PendingMap) (k : String) (hk : k ≠ detectionKey d) :
    lookupKey k (processOneDetection source startTime now d m) = lookupKey k m := by
  simp only [detectionKey] at hk
  unfold processOneDetection
  cases hl : lookupKey (toLowerStr d.note.commonName) m <;>
    simp [hl, lookupKey_upsertKey_ne _ _ _ _ hk]

/-! ### Claim C1 -/

/-- A concrete note used in witnesses and counterexamples. -/
def noteRobin : Note :=
  { commonName := "Robin", scientificName := "Turdus migratorius",
    confidence := qmk 9 10, beginTime := 0 }

/-- A concrete detection wrapping `noteRobin`. -/
def detRobin : Detections := { pcmData3s := [], note := noteRobin }

/-- The same species with a lower confidence. -/
def noteRobinLow : Note :=
  { commonName := "Robin", scientificName := "Turdus migratorius",
    confidence := qmk 1 2, beginTime := 0 }

/-- A concrete lower-confidence detection. -/
def detRobinLow : Detections := { pcmData3s := [], note := noteRobinLow }

/-- A concrete pending entry for "robin" whose `lastUpdated` is `50`. -/
def pendingRobin : PendingDetection :=
  { detection := detRobin, confidence := qmk 9 10, source := "card",
    firstDetected := 100, lastUpdated := 50,
    flushDeadline := 100 + pendingDelay, count := 1 }

/-- Claim C1, counterexample: processing a result whose confidence does not
exceed the stored best leaves `lastUpdated` untouched (here `50`, not the
current time `300`), refuting "last_updated is always set to the current
time". -/
theorem claim1_counterexample :
    lookupKey "robin" (processOneDetection "card" 200 300 detRobinLow [("robin", pendingRobin)]) =
      some { pendingRobin with count := 2 }
    ∧ ({ pendingRobin with count := 2 }).lastUpdated ≠ (300 : Int) := by
  constructor
  · decide
  · decide

/-- Claim C1 (amended): keyed by the lowercased common name, a missing entry is
created with `first_detected = start_time`, `flush_deadline = start_time +
15 s`, `count = 1` and `last_updated` left at the zero time; an existing entry
has its count incremented and its detection, source, confidence and
`last_updated` replaced exactly when the new confidence exceeds the stored
best (otherwise they are all unchanged), with `flush_deadline` and
`first_detected` never modified; entries under other keys are untouched. -/
theorem claim1_processOneDetection_characterization (source : String) (startTime now : Int)
    (d : Detections) (m : PendingMap) :
    (lookupKey (toLowerStr d.note.commonName) m = none →
      lookupKey (toLowerStr d.note.commonName) (processOneDetection source startTime now d m) =
        some { detection := d, confidence := d.note.confidence, source := source,
               firstDetected := startTime, lastUpdated := 0,
               flushDeadline := startTime + pendingDelay, count := 1 })
    ∧ (∀ e, lookupKey (toLowerStr d.note.commonName) m = some e →
        lookupKey (toLowerStr d.note.commonName) (processOneDetection source startTime now d m) =
          some (if d.note.confidence > e.confidence then
                  { detection := d, confidence := d.note.confidence, source := source,
                    firstDetected := e.firstDetected, lastUpdated := now,
                    flushDeadline := e.flushDeadline, count := e.count + 1 }
                else { e with count := e.count + 1 }))
    ∧ (∀ k, k ≠ toLowerStr d.note.commonName →
        lookupKey k (processOneDetection source startTime now d m) = lookupKey k m) := by
  refine ⟨?_, ?_, ?_⟩
  · intro h
    simp [processOneDetection, h, lookupKey_upsertKey_self]
  · intro e h
    by_cases hc : d.note.confidence > e.confidence
    · simp [processOneDetection, h, hc, lookupKey_upsertKey_self]
    · simp [processOneDetection, h, hc, lookupKey_upsertKey_self]
  · intro k hk
    unfold processOneDetection
    cases hl : lookupKey (toLowerStr d.note.commonName) m <;>
      simp [hl, lookupKey_upsertKey_ne _ _ _ _ hk]

/-- Claim C1, witness: the characterization applied to a fresh map. -/
theorem claim1_witness :
    lookupKey "robin" (processOneDetection "card" 100 250 detRobin []) =
      some { detection := detRobin, confidence := qmk 9 10, source := "card",
             firstDetected := 100, lastUpdated := 0,
             flushDeadline := 100 + pendingDelay, count := 1 } := by
  exact (claim1_processOneDetection_characterization "card" 100 250 detRobin []).1 rfl

/-! ### Claim C2

The subsystem's behavior over time is an arbitrary list of operations — one
`processDetections` loop iteration or one flusher tick — folded over the
empty map.  To state "the confidence equals the best confidence among the
hits aggregated into the entry", the fold is instrumented with a ghost map
that records, for every key with a live entry, exactly the confidences the
`proc` operations contributed to it since its creation (ticks drop the lists
of flushed keys).  The ghost is computed from the operation list, so the
best-confidence clause below speaks about the actual aggregated hits.
-/

theorem lookupKey_cons_self {α : Type} (k : String) (v : α) (rest : List (String × α)) :
    lookupKey k ((k, v) :: rest) = some v := by
  simp [lookupKey]

theorem lookupKey_cons_ne {α : Type} (k0 k : String) (v : α) (rest : List (String × α))
    (h : ¬ k0 = k) : lookupKey k ((k0, v) :: rest) = lookupKey k rest := by
  simp [lookupKey, h]

theorem lookupKey_eq_none {α : Type} (k : String) (m : List (String × α))
    (h : k ∉ m.map Prod.fst) : lookupKey k m = none := by
  induction m with
  | nil => rfl
  | cons q rest ih =>
    obtain ⟨k0, v0⟩ := q
    simp only [List.map_cons, List.mem_cons] at h
    push_neg at h
    rw [lookupKey, if_neg (fun he => h.1 he.symm)]
    exact ih h.2

theorem keys_upsertKey_nodup {α : Type} (k : String) (v : α) (m : List (String × α))
    (h : (m.map Prod.fst).Nodup) : ((upsertKey k v m).map Prod.fst).Nodup := by
  induction m with
  | nil => simp [upsertKey]
  | cons q rest ih =>
    obtain ⟨k0, v0⟩ := q
    rw [List.map_cons, List.nodup_cons] at h
    obtain ⟨hk0, hrest⟩ := h
    by_cases h0 : k0 = k
    · subst h0
      simp only [upsertKey, if_pos rfl, List.map_cons]
      exact List.nodup_cons.mpr ⟨hk0, hrest⟩
    · simp only [upsertKey, if_neg h0, List.map_cons]
      refine List.nodup_cons.mpr ⟨?_, ih hrest⟩
      intro hmem
      rw [List.mem_map] at hmem
      obtain ⟨x, hx, hx1⟩ := hmem
      rcases mem_upsertKey _ _ _ _ _ hx with hq | hq
      · exact h0 (hx1.symm.trans (congrArg Prod.fst hq))
      · exact hk0 (List.mem_map.mpr ⟨x, hq, hx1⟩)

theorem keys_filter_nodup {α : Type} (p : String × α → Bool) (m : List (String × α))
    (h : (m.map Prod.fst).Nodup) : ((m.filter p).map Prod.fst).Nodup :=
  h.sublist ((m.filter_sublist).map Prod.fst)

theorem lookupKey_filter_nodup {α : Type} (k : String) (p : String × α → Bool)
    (m : List (String × α)) (hnd : (m.map Prod.fst).Nodup) (v : α) :
    lookupKey k (m.filter p) = some v ↔ lookupKey k m = some v ∧ p (k, v) = true := by
  induction m with
  | nil => simp [lookupKey]
  | cons q rest ih =>
    obtain ⟨k0, v0⟩ := q
    rw [List.map_cons, List.nodup_cons] at hnd
    obtain ⟨hk0, hrest⟩ := hnd
    rw [List.filter_cons]
    by_cases hp : p (k0, v0) = true
    · rw [if_pos hp]
      by_cases hk : k0 = k
      · subst hk
        rw [lookupKey_cons_self, lookupKey_cons_self]
        constructor
        · intro h
          rw [Option.some.injEq] at h
          subst h
          exact ⟨rfl, hp⟩
        · intro h
          exact h.1
      · rw [lookupKey_cons_ne _ _ _ _ hk, lookupKey_cons_ne _ _ _ _ hk]
        exact ih hrest
    · rw [if_neg hp]
      by_cases hk : k0 = k
      · subst hk
        have hnone : lookupKey k0 (rest.filter p) = none := by
          apply lookupKey_eq_none
          intro hmem
          apply hk0
          rw [List.mem_map] at hmem ⊢
          obtain ⟨x, hx, hx1⟩ := hmem
          exact ⟨x, List.mem_of_mem_filter hx, hx1⟩
        rw [hnone, lookupKey_cons_self]
        constructor
        · intro h
          exact absurd h (by simp)
        · rintro ⟨h, hpv⟩
          rw [Option.some.injEq] at h
          subst h
          exact absurd hpv hp
      · rw [lookupKey_cons_ne _ _ _ _ hk]
        exact ih hrest

/-- One iteration of the aggregation loop viewed as data: the `Source` and
`StartTime` of the classifier item, the wall clock, and the detection. -/
structure ProcCall where
  source : String
  startTime : Int
  now : Int
  detection : Detections

/-- The pending-map key a call aggregates into. -/
def ProcCall.key (c : ProcCall) : String := detectionKey c.detection

/-- The confidence a call carries. -/
def ProcCall.conf (c : ProcCall) : ℚ := c.detection.note.confidence

/-- A sequence of aggregation-loop iterations folded over the map. -/
def runCalls (calls : List ProcCall) (m : PendingMap) : PendingMap :=
  calls.foldl (fun acc c => processOneDetection c.source c.startTime c.now c.detection acc) m

/-- One observable operation on the pending-detections subsystem: an
aggregation-loop iteration of `processDetections`, or one flusher tick. -/
inductive PendingOp
  | proc (source : String) (startTime now : Int) (detection : Detections)
  | tick (p : FlusherSettings) (now : Int)

/-- The pending-map effect of one operation. -/
def opStep (m : PendingMap) : PendingOp → PendingMap
  | .proc source startTime now d => processOneDetection source startTime now d m
  | .tick p now => (pendingDetectionsFlusherTick p now m).1

/-- Ghost instrumentation run alongside `opStep`: for every key with a live
pending entry, the confidences that `proc` operations aggregated into that
entry since its creation.  A `proc` step prepends its confidence to the
key's list (or starts a fresh singleton when the entry is created); a tick
drops the lists of the keys it flushes. -/
def aggStep (m : PendingMap) (g : List (String × List ℚ)) :
    PendingOp → List (String × List ℚ)
  | .proc _ _ _ d =>
      match lookupKey (detectionKey d) m with
      | some _ =>
          upsertKey (detectionKey d)
            (d.note.confidence :: (lookupKey (detectionKey d) g).getD []) g
      | none => upsertKey (detectionKey d) [d.note.confidence] g
  | .tick _ now =>
      g.filter fun q =>
        match lookupKey q.1 m with
        | some e => decide (now ≤ e.flushDeadline)
        | none => false

/-- One instrumented step: the map evolves by `opStep`, the ghost by `aggStep`. -/
def sysStep (s : PendingMap × List (String × List ℚ)) (op : PendingOp) :
    PendingMap × List (String × List ℚ) :=
  (opStep s.1 op, aggStep s.1 s.2 op)

/-- Any sequence of operations applied to the empty map, with its ghost. -/
def runOps (ops : List PendingOp) : PendingMap × List (String × List ℚ) :=
  ops.foldl sysStep ([], [])

/-- The system invariant: key lists are duplicate-free and every live entry
carries the deadline equation, a positive count, and a ghost list of exactly
`count` aggregated confidences whose maximum is the entry's confidence. -/
def PendingSysInv (m : PendingMap) (g : List (String × List ℚ)) : Prop :=
  (m.map Prod.fst).Nodup ∧ (g.map Prod.fst).Nodup ∧
  ∀ k e, lookupKey k m = some e →
    e.flushDeadline = e.firstDetected + pendingDelay ∧ 1 ≤ e.count ∧
    ∃ cs : List ℚ, lookupKey k g = some cs ∧ cs.length = e.count ∧
      e.confidence ∈ cs ∧ ∀ c ∈ cs, c ≤ e.confidence

theorem flusherTick_fst_eq (p : FlusherSettings) (now : Int) (m : PendingMap) :
    (pendingDetectionsFlusherTick p now m).1 =
      m.filter (fun q => decide (now ≤ q.2.flushDeadline)) := by
  induction m with
  | nil => simp [pendingDetectionsFlusherTick]
  | cons q rest ih =>
    obtain ⟨k0, e0⟩ := q
    simp only [pendingDetectionsFlusherTick]
    by_cases hd : e0.flushDeadline < now
    · by_cases hs : (shouldDiscardDetection p e0 (minDetectionsFromOverlap p.overlap)).1 <;>
        simp [hd, hs, not_le.mpr hd, ih]
    · simp [hd, not_lt.mp hd, ih]

theorem sysStep_inv (s : PendingMap × List (String × List ℚ)) (op : PendingOp)
    (h : PendingSysInv s.1 s.2) : PendingSysInv (sysStep s op).1 (sysStep s op).2 := by
  obtain ⟨hndM, hndG, hInv⟩ := h
  cases op with
  | proc source startTime now d =>
    refine ⟨?_, ?_, ?_⟩
    · show ((processOneDetection source startTime now d s.1).map Prod.fst).Nodup
      cases hl : lookupKey (toLowerStr d.note.commonName) s.1 with
      | none =>
        simp only [processOneDetection, hl]
        exact keys_upsertKey_nodup _ _ _ hndM
      | some existing =>
        simp only [processOneDetection, hl]
        exact keys_upsertKey_nodup _ _ _ hndM
    · show ((aggStep s.1 s.2 (.proc source startTime now d)).map Prod.fst).Nodup
      cases hl : lookupKey (detectionKey d) s.1 with
      | none =>
        simp only [aggStep, hl]
        exact keys_upsertKey_nodup _ _ _ hndG
      | some existing =>
        simp only [aggStep, hl]
        exact keys_upsertKey_nodup _ _ _ hndG
    · intro k e he
      by_cases hk : k = detectionKey d
      · subst hk
        cases hl : lookupKey (detectionKey d) s.1 with
        | none =>
          rw [show (sysStep s (.proc source startTime now d)).1 =
              processOneDetection source startTime now d s.1 from rfl,
            processOne_lookup_new source startTime now d s.1 hl] at he
          rw [Option.some.injEq] at he
          subst he
          refine ⟨rfl, le_refl 1, [d.note.confidence], ?_, rfl,
            List.mem_singleton_self _, fun c hc => le_of_eq (List.mem_singleton.mp hc)⟩
          show lookupKey (detectionKey d)
            (aggStep s.1 s.2 (.proc source startTime now d)) = some [d.note.confidence]
          simp only [aggStep, hl]
          exact lookupKey_upsertKey_self ..
        | some existing =>
          rw [show (sysStep s (.proc source startTime now d)).1 =
              processOneDetection source startTime now d s.1 from rfl,
            processOne_lookup_updated source startTime now d s.1 existing hl] at he
          rw [Option.some.injEq] at he
          obtain ⟨hdead, hcnt, cs, hg, hlen, hmemc, hbound⟩ :=
            hInv (detectionKey d) existing hl
          have hagg : lookupKey (detectionKey d)
              (aggStep s.1 s.2 (.proc source startTime now d)) =
                some (d.note.confidence :: cs) := by
            simp only [aggStep, hl, hg, Option.getD_some]
            exact lookupKey_upsertKey_self ..
          by_cases hc : d.note.confidence > existing.confidence
          · rw [if_pos hc] at he
            subst he
            refine ⟨hdead, Nat.le_add_left 1 _, d.note.confidence :: cs, hagg,
              by simp [hlen], List.mem_cons_self .., ?_⟩
            intro c hcm
            rcases List.mem_cons.mp hcm with h2 | h2
            · exact le_of_eq h2
            · exact le_trans (hbound c h2) (le_of_lt hc)
          · rw [if_neg hc] at he
            subst he
            refine ⟨hdead, Nat.le_add_left 1 _, d.note.confidence :: cs, hagg,
              by simp [hlen], List.mem_cons_of_mem _ hmemc, ?_⟩
            intro c hcm
            rcases List.mem_cons.mp hcm with h2 | h2
            · exact h2 ▸ le_of_not_lt hc
            · exact hbound c h2
      · have hother : lookupKey k (sysStep s (.proc source startTime now d)).1 =
            lookupKey k s.1 :=
          processOne_lookup_other source startTime now d s.1 k hk
        rw [hother] at he
        obtain ⟨hdead, hcnt, cs, hg, hlen, hmemc, hbound⟩ := hInv k e he
        refine ⟨hdead, hcnt, cs, ?_, hlen, hmemc, hbound⟩
        show lookupKey k (aggStep s.1 s.2 (.proc source startTime now d)) = some cs
        cases hl : lookupKey (detectionKey d) s.1 with
        | none =>
          simp only [aggStep, hl]
          rw [lookupKey_upsertKey_ne _ _ _ _ hk]
          exact hg
        | some existing =>
          simp only [aggStep, hl]
          rw [lookupKey_upsertKey_ne _ _ _ _ hk]
          exact hg
  | tick p now =>
    refine ⟨?_, ?_, ?_⟩
    · show (((pendingDetectionsFlusherTick p now s.1).1).map Prod.fst).Nodup
      rw [flusherTick_fst_eq]
      exact keys_filter_nodup _ _ hndM
    · exact keys_filter_nodup _ _ hndG
    · intro k e he
      rw [show (sysStep s (.tick p now)).1 = (pendingDetectionsFlusherTick p now s.1).1
          from rfl, flusherTick_fst_eq] at he
      obtain ⟨hlk, hpred⟩ := (lookupKey_filter_nodup k _ s.1 hndM e).mp he
      obtain ⟨hdead, hcnt, cs, hg, hlen, hmemc, hbound⟩ := hInv k e hlk
      refine ⟨hdead, hcnt, cs, ?_, hlen, hmemc, hbound⟩
      show lookupKey k (aggStep s.1 s.2 (.tick p now)) = some cs
      refine (lookupKey_filter_nodup k _ s.2 hndG cs).mpr ⟨hg, ?_⟩
      show (match lookupKey k s.1 with
            | some e1 => decide (now ≤ e1.flushDeadline)
            | none => false) = true
      rw [hlk]
      exact hpred

theorem runOps_inv (ops : List PendingOp) : PendingSysInv (runOps ops).1 (runOps ops).2 := by
  have base : PendingSysInv ([] : PendingMap) [] :=
    ⟨List.nodup_nil, List.nodup_nil, fun k e h => by simp [lookupKey] at h⟩
  have main : ∀ (l : List PendingOp) (s : PendingMap × List (String × List ℚ)),
      PendingSysInv s.1 s.2 → PendingSysInv (l.foldl sysStep s).1 (l.foldl sysStep s).2 := by
    intro l
    induction l with
    | nil => intro s hs; exact hs
    | cons op rest ih =>
      intro s hs
      exact ih (sysStep s op) (sysStep_inv s op hs)
  exact main ops ([], []) base

theorem ite_gt_eq_max (a b : ℚ) : (if b > a then b else a) = max a b := by
  by_cases h : a < b
  · rw [if_pos h, max_eq_right (le_of_lt h)]
  · rw [if_neg h, max_eq_left (le_of_not_lt h)]

theorem runCalls_lookup (key : String) (calls : List ProcCall) (m : PendingMap)
    (e : PendingDetection) (hl : lookupKey key m = some e) :
    ∃ e1, lookupKey key (runCalls calls m) = some e1 ∧
      e1.confidence =
        ((calls.filter (fun c => c.key = key)).map ProcCall.conf).foldl max e.confidence ∧
      e1.count = e.count + (calls.filter (fun c => c.key = key)).length ∧
      e1.firstDetected = e.firstDetected ∧ e1.flushDeadline = e.flushDeadline := by
  induction calls generalizing m e with
  | nil => exact ⟨e, hl, by simp [runCalls], by simp, rfl, rfl⟩
  | cons c rest ih =>
    by_cases hk : c.key = key
    · have hl2 := processOne_lookup_updated c.source c.startTime c.now c.detection m e
        (by rw [show detectionKey c.detection = c.key from rfl, hk]; exact hl)
      rw [show detectionKey c.detection = c.key from rfl, hk] at hl2
      obtain ⟨e1, he1, hconf, hcnt, hfirst, hdead⟩ := ih _ _ hl2
      refine ⟨e1, he1, ?_, ?_, ?_, ?_⟩
      · rw [hconf]
        by_cases hc : c.detection.note.confidence > e.confidence <;>
          simp [hk, hc, List.foldl, ProcCall.conf, ite_gt_eq_max, max_def, le_of_lt,
            le_of_not_lt]
      · rw [hcnt]
        by_cases hc : c.detection.note.confidence > e.confidence <;>
          simp [hk, hc] <;> omega
      · rw [hfirst]
        by_cases hc : c.detection.note.confidence > e.confidence <;> simp [hc]
      · rw [hdead]
        by_cases hc : c.detection.note.confidence > e.confidence <;> simp [hc]
    · have hl2 : lookupKey key
          (processOneDetection c.source c.startTime c.now c.detection m) = some e := by
        rw [processOne_lookup_other c.source c.startTime c.now c.detection m key
          (fun h => hk (h ▸ rfl))]
        exact hl
      obtain ⟨e1, he1, hconf, hcnt, hfirst, hdead⟩ := ih _ _ hl2
      exact ⟨e1, he1, by simpa [hk] using hconf, by simpa [hk] using hcnt, hfirst, hdead⟩

theorem runCalls_fresh (c0 : ProcCall) (calls : List ProcCall) (m : PendingMap)
    (hl : lookupKey c0.key m = none) (hall : ∀ c ∈ calls, c.key = c0.key) :
    ∃ e1, lookupKey c0.key (runCalls (c0 :: calls) m) = some e1 ∧
      e1.confidence = (calls.map ProcCall.conf).foldl max c0.conf ∧
      e1.count = calls.length + 1 ∧
      e1.firstDetected = c0.startTime ∧
      e1.flushDeadline = c0.startTime + pendingDelay := by
  have h0 := processOne_lookup_new c0.source c0.startTime c0.now c0.detection m hl
  have hrun : runCalls (c0 :: calls) m =
      runCalls calls (processOneDetection c0.source c0.startTime c0.now c0.detection m) := rfl
  obtain ⟨e1, he1, hconf, hcnt, hfirst, hdead⟩ := runCalls_lookup c0.key calls _ _ h0
  have hfilter : calls.filter (fun c => c.key = c0.key) = calls :=
    List.filter_eq_self.mpr (fun c hc => decide_eq_true (hall c hc))
  refine ⟨e1, hrun ▸ he1, ?_, ?_, ?_, ?_⟩
  · rw [hconf, hfilter]
    rfl
  · rw [hcnt, hfilter]
    show 1 + calls.length = calls.length + 1
    omega
  · rw [hfirst]
  · rw [hdead]

/-- The entry produced by a first "robin" hit at start time 100 and wall time 250. -/
def freshRobinEntry : PendingDetection :=
  { detection := detRobin, confidence := qmk 9 10, source := "card",
    firstDetected := 100, lastUpdated := 0,
    flushDeadline := 100 + pendingDelay, count := 1 }

/-- Claim C2, counterexample: after a single aggregation operation the map
holds an entry with `lastUpdated = 0 < firstDetected = 100`, refuting the
stated invariant `first_detected ≤ last_updated`. -/
theorem claim2_counterexample :
    lookupKey "robin" (runOps [PendingOp.proc "card" 100 250 detRobin]).1 =
      some freshRobinEntry ∧
    ¬ (freshRobinEntry.firstDetected ≤ freshRobinEntry.lastUpdated) :=
  ⟨by decide, by decide⟩

/-- Claim C2 (amended): after any sequence of `processDetections` steps and
flusher ticks starting from the empty map, every pending entry satisfies
`flush_deadline = first_detected + 15 s` and `count ≥ 1`, and the entry's
confidence equals the best (maximum) confidence among the hits actually
aggregated into it so far: the ghost list `(runOps ops).2` — built by
prepending each aggregated hit's confidence and dropped on flush — has length
`count`, contains the entry's confidence, and is bounded by it.  A same-key
burst additionally pins `first_detected` to the first hit's start time.  The
stated inequality `first_detected ≤ last_updated` is dropped: a newly created
entry keeps `last_updated` at the zero time until a strictly higher
confidence replaces the stored best. -/
theorem claim2_pending_invariant :
    (∀ (ops : List PendingOp) (k : String) (e : PendingDetection),
        lookupKey k (runOps ops).1 = some e →
        e.flushDeadline = e.firstDetected + pendingDelay ∧ 1 ≤ e.count ∧
        ∃ cs : List ℚ, lookupKey k (runOps ops).2 = some cs ∧ cs.length = e.count ∧
          e.confidence ∈ cs ∧ ∀ c ∈ cs, c ≤ e.confidence)
    ∧ (∀ (c0 : ProcCall) (calls : List ProcCall) (m : PendingMap),
        lookupKey c0.key m = none → (∀ c ∈ calls, c.key = c0.key) →
        ∃ e1, lookupKey c0.key (runCalls (c0 :: calls) m) = some e1 ∧
          e1.confidence = (calls.map ProcCall.conf).foldl max c0.conf ∧
          e1.count = calls.length + 1 ∧
          e1.firstDetected = c0.startTime ∧
          e1.flushDeadline = c0.startTime + pendingDelay) :=
  ⟨fun ops k e he => (runOps_inv ops).2.2 k e he, runCalls_fresh⟩

/-- Claim C2, witness: the invariant applied to the concrete run holding
`freshRobinEntry`, and the burst clause applied to two "Robin" hits. -/
theorem claim2_witness :
    (freshRobinEntry.flushDeadline = freshRobinEntry.firstDetected + pendingDelay ∧
      1 ≤ freshRobinEntry.count ∧
      ∃ cs : List ℚ,
        lookupKey "robin" (runOps [PendingOp.proc "card" 100 250 detRobin]).2 = some cs ∧
        cs.length = freshRobinEntry.count ∧ freshRobinEntry.confidence ∈ cs ∧
        ∀ c ∈ cs, c ≤ freshRobinEntry.confidence) ∧
    (∃ e1, lookupKey (ProcCall.key ⟨"card", 100, 250, detRobinLow⟩)
        (runCalls [⟨"card", 100, 250, detRobinLow⟩, ⟨"card", 103, 253, detRobin⟩] []) =
          some e1 ∧
      e1.confidence =
        (([⟨"card", 103, 253, detRobin⟩] : List ProcCall).map ProcCall.conf).foldl max
          (ProcCall.conf ⟨"card", 100, 250, detRobinLow⟩) ∧
      e1.count = 2 ∧ e1.firstDetected = 100 ∧ e1.flushDeadline = 100 + pendingDelay) := by
  constructor
  · exact claim2_pending_invariant.1 [PendingOp.proc "card" 100 250 detRobin]
      "robin" freshRobinEntry (by decide)
  · exact claim2_pending_invariant.2 ⟨"card", 100, 250, detRobinLow⟩
      [⟨"card", 103, 253, detRobin⟩] [] rfl
      (by intro c hc; simp at hc; subst hc; decide)

/-! ### Claim C4 -/

theorem goTrunc_nonneg (q : ℚ) (h : 0 ≤ q) : goTrunc q = ⌊q⌋ := by
  rw [goTrunc, if_neg (not_lt.mpr h)]

theorem floor_max_rat (a b : ℚ) : ⌊max a b⌋ = max ⌊a⌋ ⌊b⌋ := by
  rcases le_total a b with h | h
  · rw [max_eq_right h, max_eq_right (Int.floor_le_floor h)]
  · rw [max_eq_left h, max_eq_left (Int.floor_le_floor h)]

theorem minDetections_formula (overlap : ℚ) :
    minDetectionsFromOverlap overlap = max 1 ⌊3 / max (1/10) (3 - overlap)⌋ := by
  unfold minDetectionsFromOverlap
  have hq : (0:ℚ) ≤ max 1 (3 / max (1/10) (3 - overlap)) :=
    le_trans zero_le_one (le_max_left _ _)
  rw [goTrunc_nonneg _ hq, floor_max_rat, Int.floor_one]

theorem flusherTick_snd_eq (p : FlusherSettings) (now : Int) (m : PendingMap) :
    (pendingDetectionsFlusherTick p now m).2 =
      (m.filter (fun q => decide (q.2.flushDeadline < now) &&
          !(shouldDiscardDetection p q.2 (minDetectionsFromOverlap p.overlap)).1)).flatMap
        (fun q => processApprovedDetection p q.2) := by
  induction m with
  | nil => simp [pendingDetectionsFlusherTick]
  | cons q rest ih =>
    obtain ⟨k0, e0⟩ := q
    simp only [pendingDetectionsFlusherTick]
    by_cases hd : e0.flushDeadline < now
    · by_cases hs : (shouldDiscardDetection p e0 (minDetectionsFromOverlap p.overlap)).1 <;>
        simp [hd, hs, ih]
    · simp [hd, ih]

theorem shouldDiscard_iff (p : FlusherSettings) (item : PendingDetection) (minDet : Int) :
    (shouldDiscardDetection p item minDet).1 = true ↔
      ((item.count : Int) < minDet ∨
       (p.privacyFilterEnabled = true ∧
         ∃ t, lookupKey item.source p.lastHumanDetection = some t ∧ item.firstDetected < t) ∨
       (p.dogBarkFilterEnabled = true ∧
         (p.checkDogBarkFilter item.detection.note.commonName
            ((lookupKey item.source p.lastDogDetection).getD 0) = true ∨
          p.checkDogBarkFilter item.detection.note.scientificName
            ((lookupKey item.source p.lastDogDetection).getD 0) = true))) := by
  unfold shouldDiscardDetection
  split_ifs with h1 h2 h3
  · simp [h1]
  · refine ⟨fun _ => ?_, fun _ => rfl⟩
    rw [Bool.and_eq_true] at h2
    rcases h2 with ⟨hp, hm⟩
    cases hl : lookupKey item.source p.lastHumanDetection with
    | none => rw [hl] at hm; simp at hm
    | some t =>
      rw [hl] at hm
      exact Or.inr (Or.inl ⟨hp, t, rfl, by simpa using hm⟩)
  · refine ⟨fun _ => ?_, fun _ => rfl⟩
    rw [Bool.and_eq_true] at h3
    rcases h3 with ⟨hd, hor⟩
    rw [Bool.or_eq_true] at hor
    rcases hor with hc | hc
    · exact Or.inr (Or.inr ⟨hd, Or.inl hc⟩)
    · exact Or.inr (Or.inr ⟨hd, Or.inr hc⟩)
  · refine ⟨fun h => absurd h (by simp), fun hr => ?_⟩
    exfalso
    rcases hr with h | ⟨hp, t, hl, ht⟩ | ⟨hd, hc⟩
    · exact h1 h
    · apply h2
      rw [hl]
      simp [hp, ht]
    · apply h3
      rcases hc with hc | hc <;> simp [hd, hc]

theorem processApproved_spec (p : FlusherSettings) (item : PendingDetection) :
    (processApprovedDetection p item).length =
      (p.actionsForItem
        { item.detection with
          note := { item.detection.note with beginTime := item.firstDetected } }).length ∧
    ∀ t ∈ processApprovedDetection p item,
      t.detection.note.beginTime = item.firstDetected := by
  constructor
  · simp [processApprovedDetection]
  · intro t ht
    simp only [processApprovedDetection, List.mem_map] at ht
    obtain ⟨a, _, hta⟩ := ht
    rw [← hta]

/-- Claim C4: at each flusher tick every entry whose deadline has passed is
removed; such an entry is discarded (emits no tasks) exactly when its count is
below `min_detections = max(1, floor(3 / max(0.1, 3 - overlap)))`, or the
privacy filter is enabled and the source's last human detection postdates
`first_detected`, or the dog-bark filter matches; otherwise `begin_time` is
set to `first_detected` and one task per planned action is emitted. -/
theorem claim4_flusher_characterization (p : FlusherSettings) (now : Int) (m : PendingMap) :
    (pendingDetectionsFlusherTick p now m).1 =
      m.filter (fun q => decide (now ≤ q.2.flushDeadline))
    ∧ (pendingDetectionsFlusherTick p now m).2 =
      (m.filter (fun q => decide (q.2.flushDeadline < now) &&
          !(shouldDiscardDetection p q.2 (minDetectionsFromOverlap p.overlap)).1)).flatMap
        (fun q => processApprovedDetection p q.2)
    ∧ (∀ item minDet, (shouldDiscardDetection p item minDet).1 = true ↔
        ((item.count : Int) < minDet ∨
         (p.privacyFilterEnabled = true ∧
           ∃ t, lookupKey item.source p.lastHumanDetection = some t ∧ item.firstDetected < t) ∨
         (p.dogBarkFilterEnabled = true ∧
           (p.checkDogBarkFilter item.detection.note.commonName
              ((lookupKey item.source p.lastDogDetection).getD 0) = true ∨
            p.checkDogBarkFilter item.detection.note.scientificName
              ((lookupKey item.source p.lastDogDetection).getD 0) = true))))
    ∧ (∀ overlap : ℚ, minDetectionsFromOverlap overlap = max 1 ⌊3 / max (1/10) (3 - overlap)⌋)
    ∧ (∀ item, (processApprovedDetection p item).length =
          (p.actionsForItem
            { item.detection with
              note := { item.detection.note with beginTime := item.firstDetected } }).length ∧
        ∀ t ∈ processApprovedDetection p item,
          t.detection.note.beginTime = item.firstDetected) :=
  ⟨flusherTick_fst_eq p now m, flusherTick_snd_eq p now m, shouldDiscard_iff p,
   minDetections_formula, processApproved_spec p⟩

/-- Concrete flusher settings: privacy filter on, dog-bark filter off,
a human detection on "card" at time 150, two planned actions, overlap 0. -/
def flusherP0 : FlusherSettings :=
  { privacyFilterEnabled := true
    dogBarkFilterEnabled := false
    lastHumanDetection := [("card", 150)]
    lastDogDetection := []
    checkDogBarkFilter := fun _ _ => false
    actionsForItem := fun _ => [0, 1]
    overlap := 0 }

/-- A pending entry whose flush deadline (115) has passed at time 200 and whose
source saw a human detection (150) after `firstDetected` (100). -/
def dueRobinEntry : PendingDetection :=
  { detection := detRobin, confidence := qmk 9 10, source := "card",
    firstDetected := 100, lastUpdated := 0, flushDeadline := 115, count := 3 }

/-- Claim C4, witness: the characterization applied to a concrete tick in which
the due entry is removed and discarded by the privacy filter, with the
concrete minimum-detections value for overlap 0. -/
theorem claim4_witness :
    (pendingDetectionsFlusherTick flusherP0 200 [("robin", dueRobinEntry)]).1 = [] ∧
    (pendingDetectionsFlusherTick flusherP0 200 [("robin", dueRobinEntry)]).2 = [] ∧
    minDetectionsFromOverlap 0 = 1 := by
  have h := claim4_flusher_characterization flusherP0 200 [("robin", dueRobinEntry)]
  have hdisc : (shouldDiscardDetection flusherP0 dueRobinEntry
      (minDetectionsFromOverlap flusherP0.overlap)).1 = true :=
    (h.2.2.1 dueRobinEntry _).mpr (Or.inr (Or.inl ⟨rfl, 150, by decide, by decide⟩))
  refine ⟨?_, ?_, ?_⟩
  · rw [h.1]
    decide
  · rw [h.2.1]
    simp [hdisc]
  · rw [h.2.2.2.1 0]
    rw [show max (1/10 : ℚ) (3 - 0) = 3 by
      rw [max_eq_right]
      · norm_num
      · norm_num]
    norm_num

/-! ### Event tracker (eventtracker.go)

`EventTracker` keeps one `EventHandler` per event type; each handler maps the
lowercased species name to the wall-clock time of its last accepted event.
`conf.SpeciesConfig.Interval` is an integer number of seconds (it may be
negative in a bad configuration); all times below are nanoseconds.
-/

/-- `EventType` from eventtracker.go. -/
inductive EventType
  | databaseSave
  | logToFile
  | sendNotification
  | birdWeatherSubmit
  | mqttPublish
  | sseBroadcast
  deriving DecidableEq, Repr

/-- The fields of `conf.SpeciesConfig` the tracker reads. -/
structure SpeciesConfig where
  threshold : ℚ
  interval : Int
  deriving Repr

/-- `EventTracker`: handler state per event type (the `LastEventTime` maps),
the normalized per-species configs, and the global default interval
(a `time.Duration`, i.e. nanoseconds). -/
structure EventTracker where
  handlers : EventType → List (String × Int)
  speciesConfigs : List (String × SpeciesConfig)
  defaultInterval : Int

/-- `TrackEvent`: resolve the effective timeout from the per-species override
(positive override wins; negative logs a warning and falls back; zero and
absent fall back), then run `shouldHandleEventLocked` with
`StandardEventBehavior` (`time.Since(last) >= timeout`): accept and record
`now` when no prior event exists or the interval has elapsed. -/
def TrackEvent (et : EventTracker) (species : String) (eventType : EventType) (now : Int) :
    Bool × EventTracker :=
  let normalizedSpecies := toLowerStr species
  let effectiveTimeout :=
    match lookupKey normalizedSpecies et.speciesConfigs with
    | some speciesConfig =>
        if speciesConfig.interval > 0 then speciesConfig.interval * nsPerSecond
        else et.defaultInterval
    | none => et.defaultInterval
  let lastMap := et.handlers eventType
  match lookupKey normalizedSpecies lastMap with
  | none =>
      (true, { et with handlers := fun t =>
        if t = eventType then upsertKey normalizedSpecies now lastMap else et.handlers t })
  | some lastEventTime =>
      if now - lastEventTime ≥ effectiveTimeout then
        (true, { et with handlers := fun t =>
          if t = eventType then upsertKey normalizedSpecies now lastMap else et.handlers t })
      else
        (false, et)

/-- Claim C3: `TrackEvent` returns true iff no prior event time is recorded for
the lowercased species under that event type, or `now - last` is at least the
effective interval (the positive per-species override in seconds, else the
global default — also for negative or zero overrides); when it returns true it
records `now` for that species and event type, and when it returns false the
tracker is unchanged. -/
theorem claim3_trackEvent_characterization (et : EventTracker) (species : String)
    (eventType : EventType) (now : Int) :
    ((TrackEvent et species eventType now).1 = true ↔
      (lookupKey (toLowerStr species) (et.handlers eventType) = none ∨
       ∃ last, lookupKey (toLowerStr species) (et.handlers eventType) = some last ∧
         (match lookupKey (toLowerStr species) et.speciesConfigs with
          | some cfg => if cfg.interval > 0 then cfg.interval * nsPerSecond
                        else et.defaultInterval
          | none => et.defaultInterval) ≤ now - last))
    ∧ ((TrackEvent et species eventType now).1 = true →
        lookupKey (toLowerStr species)
          (((TrackEvent et species eventType now).2).handlers eventType) = some now)
    ∧ ((TrackEvent et species eventType now).1 = false →
        (TrackEvent et species eventType now).2 = et) := by
  unfold TrackEvent
  cases hl : lookupKey (toLowerStr species) (et.handlers eventType) with
  | none =>
    refine ⟨?_, ?_, ?_⟩
    · simp [hl]
    · intro _
      simp [hl, lookupKey_upsertKey_self]
    · intro h
      simp [hl] at h
  | some last =>
    by_cases hge : now - last ≥
        (match lookupKey (toLowerStr species) et.speciesConfigs with
         | some cfg => if cfg.interval > 0 then cfg.interval * nsPerSecond
                       else et.defaultInterval
         | none => et.defaultInterval)
    · refine ⟨?_, ?_, ?_⟩
      · simp only [hl, if_pos hge]
        exact ⟨fun _ => Or.inr ⟨last, rfl, hge⟩, fun _ => trivial⟩
      · intro _
        simp only [hl, if_pos hge]
        simp [lookupKey_upsertKey_self]
      · intro h
        simp [hl, if_pos hge] at h
    · refine ⟨?_, ?_, ?_⟩
      · simp only [hl, if_neg hge]
        constructor
        · intro h
          simp at h
        · rintro (h | ⟨last', hl', hge'⟩)
          · exact absurd h (by simp)
          · rw [Option.some.injEq] at hl'
            exact absurd (hl' ▸ hge') hge
      · intro h
        simp [hl, if_neg hge] at h
      · intro _
        simp [hl, if_neg hge]

/-- A concrete tracker: empty handler maps, a "robin" override of 30 s, and a
45 s global default. -/
def trackerT0 : EventTracker :=
  { handlers := fun _ => []
    speciesConfigs := [("robin", { threshold := qmk 8 10, interval := 30 })]
    defaultInterval := 45 * nsPerSecond }

/-- Claim C3, witness: a first "Robin" event is accepted and the time is
recorded under the lowercased species name. -/
theorem claim3_witness :
    (TrackEvent trackerT0 "Robin" EventType.databaseSave 100).1 = true ∧
    lookupKey "robin"
      (((TrackEvent trackerT0 "Robin" EventType.databaseSave 100).2).handlers
        EventType.databaseSave) = some 100 := by
  have h := claim3_trackEvent_characterization trackerT0 "Robin" EventType.databaseSave 100
  have ht : (TrackEvent trackerT0 "Robin" EventType.databaseSave 100).1 = true :=
    h.1.mpr (Or.inl rfl)
  exact ⟨ht, h.2.1 ht⟩

/-! ### Command executor (execute.go)

Paths are Unix paths handled at the character level; the host file system is
an association list from path to Unix permission bits (`os.Stat` fails on
absent paths); the parent environment is a function from variable name to
value (`os.Getenv`); `runtime.GOOS == "windows"` is the `windows` flag.
-/

/-- Splits a character list on the slash character (path components). -/
def splitSlash : List Char → List (List Char)
  | [] => [[]]
  | c :: rest =>
    let r := splitSlash rest
    if c = '/' then [] :: r else (c :: r.headI) :: r.tail

/-- One element step of Go's `filepath.Clean` (Unix): drop empty and `.`
components, resolve `..` against the output stack, push anything else. -/
def cleanStep (rooted : Bool) (stack : List (List Char)) (comp : List Char) :
    List (List Char) :=
  if comp = [] ∨ comp = ['.'] then stack
  else if comp = ['.', '.'] then
    if stack = [] then (if rooted then [] else [['.', '.']])
    else if stack.headI = ['.', '.'] then comp :: stack else stack.tail
  else comp :: stack

/-- Joins path components with slashes. -/
def joinSlash : List (List Char) → List Char
  | [] => []
  | [piece] => piece
  | piece :: pieces => piece ++ '/' :: joinSlash pieces

/-- Whether a path is absolute: Go's `filepath.IsAbs` on Unix, i.e.
`strings.HasPrefix(path, "/")`. -/
def isAbs (path : String) : Bool := path.toList.head? == some '/'

/-- Model of Go's `filepath.Clean` for Unix paths: empty input becomes `.`,
components are normalized against `.` and `..`, rootedness is preserved. -/
def pathClean (path : String) : String :=
  if path = "" then "."
  else
    let cs := path.toList
    let rooted := cs.head? == some '/'
    let stack := (splitSlash cs).foldl (cleanStep rooted) []
    let body := joinSlash stack.reverse
    if rooted then String.mk ('/' :: body)
    else if body = [] then "." else String.mk body

/-- A stack piece of the cleaner is never empty and never contains a slash. -/
def GoodPiece (piece : List Char) : Prop := piece ≠ [] ∧ '/' ∉ piece

theorem splitSlash_ne_nil (cs : List Char) : splitSlash cs ≠ [] := by
  cases cs with
  | nil => simp [splitSlash]
  | cons c rest =>
    simp only [splitSlash]
    by_cases hc : c = '/' <;> simp [hc]

theorem splitSlash_no_slash (cs : List Char) (piece : List Char)
    (hp : piece ∈ splitSlash cs) : '/' ∉ piece := by
  induction cs generalizing piece with
  | nil =>
    simp [splitSlash] at hp
    subst hp
    simp
  | cons c rest ih =>
    simp only [splitSlash] at hp
    by_cases hc : c = '/'
    · rw [if_pos hc] at hp
      rcases List.mem_cons.mp hp with h1 | h1
      · subst h1; simp
      · exact ih piece h1
    · rw [if_neg hc] at hp
      rcases List.mem_cons.mp hp with h1 | h1
      · subst h1
        intro hmem
        rcases List.mem_cons.mp hmem with h2 | h2
        · exact hc h2.symm
        · cases hsp : splitSlash rest with
          | nil => exact splitSlash_ne_nil rest hsp
          | cons p ps =>
            rw [hsp] at h2
            exact ih p (by rw [hsp]; exact List.mem_cons_self ..) (by simpa using h2)
      · exact ih piece (List.mem_of_mem_tail h1)

theorem cleanStep_good (rooted : Bool) (stack : List (List Char)) (comp : List Char)
    (hstack : ∀ q ∈ stack, GoodPiece q) (hcomp : '/' ∉ comp) :
    ∀ q ∈ cleanStep rooted stack comp, GoodPiece q := by
  intro q hq
  unfold cleanStep at hq
  split_ifs at hq with h1 h2 h3 h4 h5
  · exact hstack q hq
  · simp at hq
  · simp at hq
    subst hq
    exact ⟨by simp, by decide⟩
  · rcases List.mem_cons.mp hq with h | h
    · subst h
      exact ⟨fun hn => h1 (Or.inl hn), hcomp⟩
    · exact hstack q h
  · exact hstack q (List.mem_of_mem_tail hq)
  · rcases List.mem_cons.mp hq with h | h
    · subst h
      exact ⟨fun hn => h1 (Or.inl hn), hcomp⟩
    · exact hstack q h

theorem foldl_cleanStep_good (rooted : Bool) (comps : List (List Char))
    (stack : List (List Char)) (hstack : ∀ q ∈ stack, GoodPiece q)
    (hcomps : ∀ p ∈ comps, '/' ∉ p) :
    ∀ q ∈ comps.foldl (cleanStep rooted) stack, GoodPiece q := by
  induction comps generalizing stack with
  | nil => exact hstack
  | cons p ps ih =>
    exact ih _ (cleanStep_good rooted stack p hstack (hcomps p (List.mem_cons_self ..)))
      (fun p' hp' => hcomps p' (List.mem_cons_of_mem _ hp'))

theorem joinSlash_head_ne (pieces : List (List Char)) (hg : ∀ q ∈ pieces, GoodPiece q) :
    (joinSlash pieces).head? ≠ some '/' := by
  cases pieces with
  | nil => simp [joinSlash]
  | cons piece rest =>
    have hgp := hg piece (List.mem_cons_self ..)
    have hpiece : piece.head? ≠ some '/' := by
      cases piece with
      | nil => exact absurd rfl hgp.1
      | cons c cs =>
        simp only [List.head?, ne_eq, Option.some.injEq]
        intro h
        exact hgp.2 (h ▸ List.mem_cons_self ..)
    cases rest with
    | nil => simpa [joinSlash] using hpiece
    | cons p2 ps =>
      cases piece with
      | nil => exact absurd rfl hgp.1
      | cons c cs => simpa [joinSlash] using hpiece

theorem pathClean_not_abs (path : String) (h : isAbs path = false) :
    isAbs (pathClean path) = false := by
  unfold pathClean
  by_cases hp : path = ""
  · rw [if_pos hp]
    decide
  · rw [if_neg hp]
    have hrooted : (path.toList.head? == some '/') = false := h
    simp only [hrooted, Bool.false_eq_true, if_false]
    by_cases hb : joinSlash ((List.foldl (cleanStep false) [] (splitSlash path.toList)).reverse) = []
    · rw [if_pos hb]
      decide
    · rw [if_neg hb]
      have hgood : ∀ q ∈ (List.foldl (cleanStep false) [] (splitSlash path.toList)).reverse,
          GoodPiece q := by
        intro q hq
        exact foldl_cleanStep_good false (splitSlash path.toList) [] (by intro q hq; simp at hq)
          (fun piece hpiece => splitSlash_no_slash path.toList piece hpiece) q
          (List.mem_reverse.mp hq)
      exact beq_eq_false_iff_ne.mpr (joinSlash_head_ne _ hgood)

/-- The error cases of `validateCommandPath`: relative path (validation),
`os.Stat` failure (file-io), missing executable bit (validation). -/
inductive PathError
  | notAbsolute
  | statFailed
  | notExecutable
  deriving DecidableEq, Repr

/-- The host file system: present paths mapped to their Unix permission bits. -/
abbrev FileSys := List (String × Nat)

/-- `validateCommandPath`: clean the path, reject non-absolute paths, require
the file to exist, and (off Windows) require an executable bit
(`info.Mode()&0o111 != 0`). -/
def validateCommandPath (fs : FileSys) (windows : Bool) (command : String) :
    Except PathError String :=
  let command := pathClean command
  if !isAbs command then .error .notAbsolute
  else
    match lookupKey command fs with
    | none => .error .statFailed
    | some mode =>
        if !windows && (mode &&& 0o111 == 0) then .error .notExecutable
        else .ok command

/-- `isValidParamName`: only `[A-Za-z0-9_-]` is allowed. -/
def isValidParamName (name : String) : Bool :=
  name.toList.all fun r =>
    !((r < 'a' || r > 'z') && (r < 'A' || r > 'Z') &&
      (r < '0' || r > '9') && r != '_' && r != '-')

/-- `sanitizeValue`: format the value (strings in this model) and strip
control characters (`r < 32`). -/
def sanitizeValue (value : String) : String :=
  String.mk (value.toList.filter fun r => !(r.toNat < 32))

/-- The quoting trigger of `buildSafeArguments`:
`strings.ContainsAny(strValue, " @\x22\x27")`. -/
def needsQuoting (s : String) : Bool :=
  s.toList.any fun r => r = ' ' || r = '@' || r = Char.ofNat 34 || r = Char.ofNat 39

/-- Whether the value already starts with a double quote. -/
def hasQuoteBefore (s : String) : Bool := s.toList.head? == some (Char.ofNat 34)

/-- Whether the value already ends with a double quote. -/
def hasQuoteAfter (s : String) : Bool := s.toList.getLast? == some (Char.ofNat 34)

/-- Model of Go's `%q` formatting: wrap in double quotes, escaping embedded
double quotes and backslashes. -/
def goQuote (s : String) : String :=
  String.mk (Char.ofNat 34 :: (s.toList.flatMap fun r =>
    if r = Char.ofNat 34 || r = '\\' then ['\\', r] else [r]) ++ [Char.ofNat 34])

/-- Insertion into a sorted list of keys. -/
def insertSorted (x : String) : List String → List String
  | [] => [x]
  | y :: ys => if x ≤ y then x :: y :: ys else y :: insertSorted x ys

/-- `slices.Sort` on the parameter keys (insertion sort). -/
def sortStrings (l : List String) : List String := l.foldr insertSorted []

/-- The per-key loop of `buildSafeArguments` over an already-sorted key list:
validate the name, take the `Note` field value by name (falling back to the
configured parameter value), sanitize, quote when needed, and emit
`--key=value`.  On a bad name the offending key is the error. -/
def buildArgsLoop (params : List (String × String)) (note : List (String × String)) :
    List String → Except String (List String)
  | [] => .ok []
  | key :: restKeys =>
    if !isValidParamName key then .error key
    else
      let value := (lookupKey key params).getD ""
      let noteValue := (lookupKey key note).getD value
      let strValue := sanitizeValue noteValue
      let strValue :=
        if needsQuoting strValue then
          (if !hasQuoteBefore strValue || !hasQuoteAfter strValue then goQuote strValue
           else strValue)
        else strValue
      match buildArgsLoop params note restKeys with
      | .error e => .error e
      | .ok args => .ok (("--" ++ key ++ "=" ++ strValue) :: args)

/-- `buildSafeArguments`: sorted keys for deterministic order, then the loop. -/
def buildSafeArguments (params : List (String × String)) (note : List (String × String)) :
    Except String (List String) :=
  buildArgsLoop params note (sortStrings (params.map Prod.fst))

/-- `getCleanEnvironment`: only `PATH`, `TEMP` and `TMP` pass through, plus
`SystemRoot` on Windows. -/
def getCleanEnvironment (getenv : String → String) (windows : Bool) : List String :=
  let env := ["PATH=" ++ getenv "PATH", "TEMP=" ++ getenv "TEMP", "TMP=" ++ getenv "TMP"]
  if windows then env ++ ["SystemRoot=" ++ getenv "SystemRoot"] else env

/-- The validation errors `ExecuteCommandAction.ExecuteContext` can produce
before any process is spawned. -/
inductive ExecError
  | pathValidation (e : PathError)
  | argValidation (badKey : String)
  deriving DecidableEq, Repr

/-- The process `exec.CommandContext` is asked to spawn: resolved path,
argument list, and environment. -/
structure SpawnedCommand where
  path : String
  args : List String
  env : List String
  deriving DecidableEq, Repr

/-- `ExecuteCommandAction.ExecuteContext` up to the spawn: validate the
command path, build sanitized arguments, and only then construct the child
process with the clean environment.  A `.ok` value is the spawned process; an
`.error` means no process was started. -/
def ExecuteCommandActionRun (fs : FileSys) (getenv : String → String) (windows : Bool)
    (command : String) (params : List (String × String)) (note : List (String × String)) :
    Except ExecError SpawnedCommand :=
  match validateCommandPath fs windows command with
  | .error e => .error (.pathValidation e)
  | .ok cmdPath =>
      match buildSafeArguments params note with
      | .error badKey => .error (.argValidation badKey)
      | .ok args => .ok { path := cmdPath, args := args, env := getCleanEnvironment getenv windows }

/-! ### Claim C5 -/

theorem validateCommandPath_ok (fs : FileSys) (windows : Bool) (command p : String)
    (h : validateCommandPath fs windows command = .ok p) :
    p = pathClean command ∧ isAbs p = true ∧
    ∃ mode, lookupKey p fs = some mode ∧ (windows = false → ¬ mode &&& 0o111 = 0) := by
  unfold validateCommandPath at h
  cases ha : isAbs (pathClean command) with
  | false => simp [ha] at h
  | true =>
    simp only [ha, Bool.not_true, Bool.false_eq_true, if_false] at h
    cases hl : lookupKey (pathClean command) fs with
    | none => simp [hl] at h
    | some mode =>
      simp only [hl] at h
      cases hw : (!windows && (mode &&& 0o111 == 0)) with
      | true => simp [hw] at h
      | false =>
        simp only [hw, Bool.false_eq_true, if_false, Except.ok.injEq] at h
        subst h
        refine ⟨rfl, ha, mode, hl, ?_⟩
        intro hwin hmode
        rw [hwin] at hw
        simp [hmode] at hw

theorem buildArgsLoop_ok_names (params note : List (String × String)) (keys : List String)
    (args : List String) (h : buildArgsLoop params note keys = .ok args) :
    ∀ k ∈ keys, isValidParamName k = true := by
  induction keys generalizing args with
  | nil => intro k hk; simp at hk
  | cons key rest ih =>
    intro k hk
    unfold buildArgsLoop at h
    cases hv : isValidParamName key with
    | false => simp [hv] at h
    | true =>
      simp only [hv, Bool.not_true, Bool.false_eq_true, if_false] at h
      rcases List.mem_cons.mp hk with h1 | h1
      · exact h1 ▸ hv
      · cases hrec : buildArgsLoop params note rest with
        | error e => rw [hrec] at h; simp at h
        | ok args' => exact ih args' hrec k h1

theorem mem_insertSorted (x y : String) (l : List String) :
    y ∈ insertSorted x l ↔ y = x ∨ y ∈ l := by
  induction l with
  | nil => simp [insertSorted]
  | cons z zs ih =>
    unfold insertSorted
    by_cases h : x ≤ z
    · simp only [if_pos h, List.mem_cons]
      try tauto
    · simp only [if_neg h, List.mem_cons, ih]
      try tauto

theorem mem_sortStrings (k : String) (l : List String) (hk : k ∈ l) : k ∈ sortStrings l := by
  induction l with
  | nil => simp at hk
  | cons x xs ih =>
    rcases List.mem_cons.mp hk with h | h
    · exact (mem_insertSorted x k _).mpr (Or.inl h)
    · exact (mem_insertSorted x k _).mpr (Or.inr (ih h))

theorem getCleanEnvironment_eq (getenv : String → String) (windows : Bool) :
    getCleanEnvironment getenv windows =
      ["PATH=" ++ getenv "PATH", "TEMP=" ++ getenv "TEMP", "TMP=" ++ getenv "TMP"] ++
        (if windows then ["SystemRoot=" ++ getenv "SystemRoot"] else []) := by
  cases windows <;> simp [getCleanEnvironment]

/-- Claim C5: a successfully spawned command has an absolute path that exists
in the file system and (off Windows) carries an executable bit, all parameter
names drawn only from `[A-Za-z0-9_-]`, and exactly the whitelisted environment
`PATH`, `TEMP`, `TMP` (plus `SystemRoot` on Windows); a non-absolute — in
particular empty — command path is rejected with a validation error before
any spawn. -/
theorem claim5_execute_safety (fs : FileSys) (getenv : String → String) (windows : Bool)
    (command : String) (params note : List (String × String)) :
    (∀ sc, ExecuteCommandActionRun fs getenv windows command params note = .ok sc →
        isAbs sc.path = true ∧
        (∃ mode, lookupKey sc.path fs = some mode ∧ (windows = false → ¬ mode &&& 0o111 = 0)) ∧
        (∀ k ∈ params.map Prod.fst, isValidParamName k = true) ∧
        sc.env = ["PATH=" ++ getenv "PATH", "TEMP=" ++ getenv "TEMP", "TMP=" ++ getenv "TMP"] ++
          (if windows then ["SystemRoot=" ++ getenv "SystemRoot"] else []))
    ∧ (isAbs command = false →
        ExecuteCommandActionRun fs getenv windows command params note =
          .error (.pathValidation .notAbsolute))
    ∧ (command = "" → isAbs command = false) := by
  refine ⟨?_, ?_, ?_⟩
  · intro sc h
    unfold ExecuteCommandActionRun at h
    cases hv : validateCommandPath fs windows command with
    | error e => rw [hv] at h; simp at h
    | ok p =>
      rw [hv] at h
      cases hb : buildSafeArguments params note with
      | error e => rw [hb] at h; simp at h
      | ok args =>
        rw [hb] at h
        rw [Except.ok.injEq] at h
        subst h
        obtain ⟨_, habs, mode, hmode, hexec⟩ :=
          validateCommandPath_ok fs windows command p hv
        refine ⟨habs, ⟨mode, hmode, hexec⟩, ?_, getCleanEnvironment_eq getenv windows⟩
        intro k hk
        exact buildArgsLoop_ok_names params note _ args hb k
          (mem_sortStrings k (params.map Prod.fst) hk)
  · intro ha
    have hc := pathClean_not_abs command ha
    unfold ExecuteCommandActionRun validateCommandPath
    simp [hc]
  · intro h
    subst h
    decide

/-- A file system with one executable file. -/
def execFs0 : FileSys := [("/usr/bin/notify", 0o755)]

/-- A parent environment mapping every variable to "v". -/
def getenv0 : String → String := fun _ => "v"

/-- The process spawned in the witness scenario. -/
def spawn0 : SpawnedCommand :=
  { path := "/usr/bin/notify", args := ["--CommonName=Robin"],
    env := ["PATH=v", "TEMP=v", "TMP=v"] }

/-- Claim C5, witness: the safety theorem applied to a concrete spawn of
`/usr/bin/notify` with one valid parameter. -/
theorem claim5_witness :
    isAbs spawn0.path = true ∧
    (∃ mode, lookupKey spawn0.path execFs0 = some mode ∧
      ((false : Bool) = false → ¬ mode &&& 0o111 = 0)) ∧
    (∀ k ∈ ([("CommonName", "x")] : List (String × String)).map Prod.fst,
      isValidParamName k = true) ∧
    spawn0.env = ["PATH=" ++ getenv0 "PATH", "TEMP=" ++ getenv0 "TEMP",
        "TMP=" ++ getenv0 "TMP"] ++
      (if (false : Bool) then ["SystemRoot=" ++ getenv0 "SystemRoot"] else []) :=
  (claim5_execute_safety execFs0 getenv0 false "/usr/bin/notify"
    [("CommonName", "x")] [("CommonName", "Robin")]).1 spawn0 rfl

/-! ### Capture ring buffer (capture.go)

`CaptureBuffer` carries the PCM bytes (as a list), the wall-clock `startTime`
in nanoseconds, and the geometry fields.  `ReadSegment` is a polling loop;
one loop iteration is embedded as a function of the buffer state and the
current wall clock, returning an error, a finished segment, or the decision
to sleep and retry.
-/

/-- `CaptureBuffer` from capture.go. -/
structure CaptureBuffer where
  data : List Nat
  writeIndex : Int
  sampleRate : Int
  bytesPerSample : Int
  bufferSize : Int
  bufferDuration : Int
  startTime : Int
  initialized : Bool
  source : String
  deriving DecidableEq, Repr

/-- `NewCaptureBuffer`: size the byte buffer to
`durationSeconds * sampleRate * bytesPerSample` rounded up to a 2048-byte
boundary; `startTime` and `writeIndex` start at their zero values. -/
def NewCaptureBuffer (durationSeconds sampleRate bytesPerSample : Int) (source : String) :
    CaptureBuffer :=
  let bufferSize := durationSeconds * sampleRate * bytesPerSample
  let alignedBufferSize := ((bufferSize + 2047).tdiv 2048) * 2048
  { data := List.replicate alignedBufferSize.toNat 0
    writeIndex := 0
    sampleRate := sampleRate
    bytesPerSample := bytesPerSample
    bufferSize := alignedBufferSize
    bufferDuration := durationSeconds * nsPerSecond
    startTime := 0
    initialized := false
    source := source }

/-- The outcome of one iteration of the `ReadSegment` polling loop. -/
inductive ReadSegmentStep
  | err (reason : String)
  | wait
  | ok (segment : List Nat)
  deriving DecidableEq, Repr

/-- `int(offset.Seconds())` for an offset in nanoseconds: division by 1e9
truncated toward zero (`Int.tdiv`). -/
def goTruncSecondsNs (ns : Int) : Int := Int.tdiv ns nsPerSecond

/-- One iteration of `ReadSegment`: recompute the offsets and indices (Go `%`
is `Int.tmod`), fail when the start guard or the range guard fires, copy the
(possibly wrapped) segment once the wall clock has passed the requested end
time, and otherwise sleep and retry (`.wait`). -/
def ReadSegmentIteration (cb : CaptureBuffer) (requestedStartTime duration now : Int) :
    ReadSegmentStep :=
  let requestedEndTime := requestedStartTime + duration * nsPerSecond
  let startOffset := requestedStartTime - cb.startTime
  let endOffset := requestedEndTime - cb.startTime
  let startIndex1 :=
    Int.tmod (goTruncSecondsNs startOffset * cb.sampleRate * cb.bytesPerSample) cb.bufferSize
  let endIndex :=
    Int.tmod (goTruncSecondsNs endOffset * cb.sampleRate * cb.bytesPerSample) cb.bufferSize
  if startOffset < 0 ∧ (cb.writeIndex = 0 ∨
      cb.writeIndex + goTruncSecondsNs startOffset * cb.sampleRate * cb.bytesPerSample
        > cb.bufferSize) then
    .err "requested start time is outside the buffer's current timeframe"
  else
    let startIndex :=
      if startOffset < 0 then Int.tmod (cb.bufferSize + startIndex1) cb.bufferSize
      else startIndex1
    if endOffset < 0 ∨ endOffset ≤ startOffset then
      .err "requested times are outside the buffer's current timeframe"
    else if requestedEndTime < now then
      .ok (if startIndex < endIndex then
            (cb.data.take endIndex.toNat).drop startIndex.toNat
          else
            cb.data.drop startIndex.toNat ++ cb.data.take endIndex.toNat)
    else
      .wait

/-- The start-time guard of `ReadSegment`: the window predates `startTime`
and either nothing has been written or the negative index would overflow. -/
def readStartGuard (cb : CaptureBuffer) (requestedStartTime : Int) : Prop :=
  requestedStartTime - cb.startTime < 0 ∧ (cb.writeIndex = 0 ∨
    cb.writeIndex + goTruncSecondsNs (requestedStartTime - cb.startTime) * cb.sampleRate *
      cb.bytesPerSample > cb.bufferSize)

/-- The range guard of `ReadSegment`: the end offset is negative or the span
is non-positive. -/
def readRangeGuard (cb : CaptureBuffer) (requestedStartTime duration : Int) : Prop :=
  requestedStartTime + duration * nsPerSecond - cb.startTime < 0 ∨
  requestedStartTime + duration * nsPerSecond - cb.startTime ≤
    requestedStartTime - cb.startTime

instance (cb : CaptureBuffer) (rst : Int) : Decidable (readStartGuard cb rst) := by
  unfold readStartGuard
  infer_instance

instance (cb : CaptureBuffer) (rst dur : Int) : Decidable (readRangeGuard cb rst dur) := by
  unfold readRangeGuard
  infer_instance

theorem ReadSegmentIteration_eq (cb : CaptureBuffer) (rst dur now : Int) :
    ReadSegmentIteration cb rst dur now =
      if readStartGuard cb rst then
        .err "requested start time is outside the buffer's current timeframe"
      else if readRangeGuard cb rst dur then
        .err "requested times are outside the buffer's current timeframe"
      else if rst + dur * nsPerSecond < now then
        .ok (if (if rst - cb.startTime < 0 then
                  Int.tmod (cb.bufferSize + Int.tmod (goTruncSecondsNs (rst - cb.startTime) *
                    cb.sampleRate * cb.bytesPerSample) cb.bufferSize) cb.bufferSize
                else
                  Int.tmod (goTruncSecondsNs (rst - cb.startTime) * cb.sampleRate *
                    cb.bytesPerSample) cb.bufferSize) <
              Int.tmod (goTruncSecondsNs (rst + dur * nsPerSecond - cb.startTime) *
                cb.sampleRate * cb.bytesPerSample) cb.bufferSize then
            (cb.data.take (Int.tmod (goTruncSecondsNs (rst + dur * nsPerSecond - cb.startTime) *
              cb.sampleRate * cb.bytesPerSample) cb.bufferSize).toNat).drop
              (if rst - cb.startTime < 0 then
                Int.tmod (cb.bufferSize + Int.tmod (goTruncSecondsNs (rst - cb.startTime) *
                  cb.sampleRate * cb.bytesPerSample) cb.bufferSize) cb.bufferSize
              else
                Int.tmod (goTruncSecondsNs (rst - cb.startTime) * cb.sampleRate *
                  cb.bytesPerSample) cb.bufferSize).toNat
          else
            cb.data.drop (if rst - cb.startTime < 0 then
                Int.tmod (cb.bufferSize + Int.tmod (goTruncSecondsNs (rst - cb.startTime) *
                  cb.sampleRate * cb.bytesPerSample) cb.bufferSize) cb.bufferSize
              else
                Int.tmod (goTruncSecondsNs (rst - cb.startTime) * cb.sampleRate *
                  cb.bytesPerSample) cb.bufferSize).toNat ++
              cb.data.take (Int.tmod (goTruncSecondsNs (rst + dur * nsPerSecond - cb.startTime) *
                cb.sampleRate * cb.bytesPerSample) cb.bufferSize).toNat)
      else
        .wait := rfl

/-! ### Claim C6 -/

/-- A buffer whose `startTime` is 10 s and which has 100 bytes written. -/
def cexCaptureBuffer : CaptureBuffer :=
  { data := List.replicate 8 0, writeIndex := 3, sampleRate := 1, bytesPerSample := 1,
    bufferSize := 8, bufferDuration := 8 * nsPerSecond, startTime := 10 * nsPerSecond,
    initialized := true, source := "card" }

/-- Claim C6, counterexample: a request starting at 9.5 s — half a second
before the buffer's `startTime` of 10 s — does not error: the truncation
`int(startOffset.Seconds()) = 0` slips past the guard (`writeIndex ≠ 0`) and
the iteration returns the whole wrapped buffer, refuting "errors exactly when
the requested window predates the buffer's start_time". -/
theorem claim6_counterexample :
    ReadSegmentIteration cexCaptureBuffer 9500000000 1 (11 * nsPerSecond) =
      .ok (List.replicate 8 0) ∧
    (9500000000 : Int) < cexCaptureBuffer.startTime := by
  constructor
  · decide
  · decide

/-- Claim C6 (amended): one `ReadSegment` iteration errors exactly when the
start guard fires (the window predates `start_time` AND `write_index = 0` or
the negative index overflows) or the range guard fires (the end offset is
negative or the span is non-positive); the span clause of the range guard is
equivalent to `duration ≤ 0`; outside the guards the iteration waits until
the wall clock passes `requested_start + duration` and then returns a fresh
copy, splicing the two half-ranges when the segment wraps. -/
theorem claim6_readSegment_characterization (cb : CaptureBuffer) (rst dur now : Int) :
    ((∃ reason, ReadSegmentIteration cb rst dur now = .err reason) ↔
      readStartGuard cb rst ∨ readRangeGuard cb rst dur)
    ∧ ((rst + dur * nsPerSecond - cb.startTime ≤ rst - cb.startTime) ↔ dur ≤ 0)
    ∧ (¬ readStartGuard cb rst → ¬ readRangeGuard cb rst dur →
        (now ≤ rst + dur * nsPerSecond → ReadSegmentIteration cb rst dur now = .wait) ∧
        (rst + dur * nsPerSecond < now →
          ReadSegmentIteration cb rst dur now =
            .ok (if (if rst - cb.startTime < 0 then
                      Int.tmod (cb.bufferSize + Int.tmod (goTruncSecondsNs (rst - cb.startTime) *
                        cb.sampleRate * cb.bytesPerSample) cb.bufferSize) cb.bufferSize
                    else
                      Int.tmod (goTruncSecondsNs (rst - cb.startTime) * cb.sampleRate *
                        cb.bytesPerSample) cb.bufferSize) <
                  Int.tmod (goTruncSecondsNs (rst + dur * nsPerSecond - cb.startTime) *
                    cb.sampleRate * cb.bytesPerSample) cb.bufferSize then
                (cb.data.take (Int.tmod (goTruncSecondsNs (rst + dur * nsPerSecond -
                  cb.startTime) * cb.sampleRate * cb.bytesPerSample) cb.bufferSize).toNat).drop
                  (if rst - cb.startTime < 0 then
                    Int.tmod (cb.bufferSize + Int.tmod (goTruncSecondsNs (rst - cb.startTime) *
                      cb.sampleRate * cb.bytesPerSample) cb.bufferSize) cb.bufferSize
                  else
                    Int.tmod (goTruncSecondsNs (rst - cb.startTime) * cb.sampleRate *
                      cb.bytesPerSample) cb.bufferSize).toNat
              else
                cb.data.drop (if rst - cb.startTime < 0 then
                    Int.tmod (cb.bufferSize + Int.tmod (goTruncSecondsNs (rst - cb.startTime) *
                      cb.sampleRate * cb.bytesPerSample) cb.bufferSize) cb.bufferSize
                  else
                    Int.tmod (goTruncSecondsNs (rst - cb.startTime) * cb.sampleRate *
                      cb.bytesPerSample) cb.bufferSize).toNat ++
                  cb.data.take (Int.tmod (goTruncSecondsNs (rst + dur * nsPerSecond -
                    cb.startTime) * cb.sampleRate * cb.bytesPerSample) cb.bufferSize).toNat))) := by
  have heq := ReadSegmentIteration_eq cb rst dur now
  refine ⟨?_, ?_, ?_⟩
  · constructor
    · rintro ⟨reason, hr⟩
      rw [heq] at hr
      by_cases h1 : readStartGuard cb rst
      · exact Or.inl h1
      by_cases h2 : readRangeGuard cb rst dur
      · exact Or.inr h2
      rw [if_neg h1, if_neg h2] at hr
      by_cases h3 : rst + dur * nsPerSecond < now <;> simp [h3] at hr
    · rintro (h1 | h2)
      · exact ⟨_, by rw [heq, if_pos h1]⟩
      · by_cases h1 : readStartGuard cb rst
        · exact ⟨_, by rw [heq, if_pos h1]⟩
        · exact ⟨_, by rw [heq, if_neg h1, if_pos h2]⟩
  · simp only [nsPerSecond]
    constructor
    · intro h
      omega
    · intro h
      omega
  · intro h1 h2
    constructor
    · intro hw
      rw [heq, if_neg h1, if_neg h2, if_neg (not_lt.mpr hw)]
    · intro hn
      rw [heq, if_neg h1, if_neg h2, if_pos hn]

/-- A buffer used for the witness: `startTime` 10 s, nothing special. -/
def waitCaptureBuffer : CaptureBuffer :=
  { data := List.replicate 16 0, writeIndex := 7, sampleRate := 1, bytesPerSample := 1,
    bufferSize := 16, bufferDuration := 16 * nsPerSecond, startTime := 10 * nsPerSecond,
    initialized := true, source := "card" }

/-- Claim C6, witness: the characterization applied to a valid in-window read
that has already completed, yielding the three bytes of the window. -/
theorem claim6_witness :
    ReadSegmentIteration waitCaptureBuffer (12 * nsPerSecond) 3 (16 * nsPerSecond) =
      .ok (List.replicate 3 0) := by
  have h := ((claim6_readSegment_characterization waitCaptureBuffer
      (12 * nsPerSecond) 3 (16 * nsPerSecond)).2.2 (by decide) (by decide)).2 (by decide)
  rw [h]
  decide

/-! ### Claim C7 -/

/-- The validation and system errors of `allocateCaptureBufferInternal`. -/
inductive AllocError
  | invalidDuration
  | invalidSampleRate
  | invalidBytesPerSample
  | emptySource
  | sizeTooLarge
  | alreadyExists
  deriving DecidableEq, Repr

/-- The package-level `captureBuffers` map. -/
abbrev CaptureBufferMap := List (String × CaptureBuffer)

/-- `allocateCaptureBufferInternal` (caller holds the map lock): validate the
parameters strictly positive and the source non-empty, refuse aligned sizes
over 1 GiB, refuse double allocation, and otherwise insert a fresh buffer.
The Go `cb == nil` check can never fire (`&CaptureBuffer{...}` is non-nil)
and has no counterpart here. -/
def allocateCaptureBufferInternal (durationSeconds sampleRate bytesPerSample : Int)
    (source : String) (captureBuffers : CaptureBufferMap) :
    Except AllocError Unit × CaptureBufferMap :=
  if durationSeconds ≤ 0 then (.error .invalidDuration, captureBuffers)
  else if sampleRate ≤ 0 then (.error .invalidSampleRate, captureBuffers)
  else if bytesPerSample ≤ 0 then (.error .invalidBytesPerSample, captureBuffers)
  else if source = "" then (.error .emptySource, captureBuffers)
  else
    let bufferSize := durationSeconds * sampleRate * bytesPerSample
    let alignedBufferSize := ((bufferSize + 2047).tdiv 2048) * 2048
    if alignedBufferSize > 2 ^ 30 then (.error .sizeTooLarge, captureBuffers)
    else
      let cb := NewCaptureBuffer durationSeconds sampleRate bytesPerSample source
      match lookupKey source captureBuffers with
      | some _ => (.error .alreadyExists, captureBuffers)
      | none => (.ok (), upsertKey source cb captureBuffers)

/-- `AllocateCaptureBufferIfNeeded`: return nil at once when a buffer for the
source already exists, otherwise allocate while holding the lock. -/
def AllocateCaptureBufferIfNeeded (durationSeconds sampleRate bytesPerSample : Int)
    (sourceID : String) (captureBuffers : CaptureBufferMap) :
    Except AllocError Unit × CaptureBufferMap :=
  match lookupKey sourceID captureBuffers with
  | some _ => (.ok (), captureBuffers)
  | none => allocateCaptureBufferInternal durationSeconds sampleRate bytesPerSample
      sourceID captureBuffers

/-- `k` successive calls of `AllocateCaptureBufferIfNeeded`, collecting every
call's result and threading the map. -/
def allocCalls (durationSeconds sampleRate bytesPerSample : Int) (sourceID : String) :
    Nat → CaptureBufferMap → List (Except AllocError Unit) × CaptureBufferMap
  | 0, m => ([], m)
  | k + 1, m =>
    let r := AllocateCaptureBufferIfNeeded durationSeconds sampleRate bytesPerSample sourceID m
    let rest := allocCalls durationSeconds sampleRate bytesPerSample sourceID k r.2
    (r.1 :: rest.1, rest.2)

theorem allocCalls_after_alloc (d sr bps : Int) (source : String) (k : Nat)
    (m : CaptureBufferMap) (hl : (lookupKey source m).isSome = true) :
    allocCalls d sr bps source k m = (List.replicate k (.ok ()), m) := by
  induction k with
  | zero => simp [allocCalls]
  | succ k ih =>
    cases hs : lookupKey source m with
    | none => rw [hs] at hl; simp at hl
    | some cb =>
      simp only [allocCalls, AllocateCaptureBufferIfNeeded, hs, ih, List.replicate]

/-- Claim C7: with strictly positive duration, sample rate and bytes per
sample, a non-empty source whose aligned buffer size is at most 1 GiB, and no
buffer yet allocated for that source, `k ≥ 1` calls of
`AllocateCaptureBufferIfNeeded` all return nil, the first call inserts
exactly one freshly created buffer, and every later call leaves the map
unchanged. -/
theorem claim7_allocate_idempotent (d sr bps : Int) (source : String) (k : Nat)
    (m : CaptureBufferMap) (hd : 0 < d) (hsr : 0 < sr) (hbps : 0 < bps)
    (hsource : source ≠ "") (hsize : ¬ ((d * sr * bps + 2047).tdiv 2048) * 2048 > 2 ^ 30)
    (hl : lookupKey source m = none) (hk : 1 ≤ k) :
    allocCalls d sr bps source k m =
      (List.replicate k (.ok ()), upsertKey source (NewCaptureBuffer d sr bps source) m) := by
  cases k with
  | zero => exact absurd hk (by simp)
  | succ k =>
    have hfirst : AllocateCaptureBufferIfNeeded d sr bps source m =
        (.ok (), upsertKey source (NewCaptureBuffer d sr bps source) m) := by
      unfold AllocateCaptureBufferIfNeeded allocateCaptureBufferInternal
      rw [hl]
      rw [if_neg (not_le.mpr hd), if_neg (not_le.mpr hsr), if_neg (not_le.mpr hbps),
        if_neg hsource, if_neg hsize]
    simp only [allocCalls, hfirst]
    rw [allocCalls_after_alloc d sr bps source k _
      (by rw [lookupKey_upsertKey_self]; rfl)]
    simp [List.replicate]

/-- Claim C7, witness: two calls for a fresh one-second buffer allocate once. -/
theorem claim7_witness :
    allocCalls 1 4 1 "mic" 2 [] =
      (List.replicate 2 (.ok ()), upsertKey "mic" (NewCaptureBuffer 1 4 1 "mic") []) :=
  claim7_allocate_idempotent 1 4 1 "mic" 2 [] (by decide) (by decide) (by decide)
    (by decide) (by decide) rfl (by decide)

/-! ### Event bus (eventbus.go)

`TryPublish` is embedded over an explicit bus state: the global
`hasActiveConsumers` atomic flag, the `initialized` and `running` flags, the
number of registered consumers, the bounded error-event channel (a list with
its capacity), the statistics counters, and the optional deduplicator.  The
`ErrorDeduplicator` lives outside the provided sources; its `ShouldProcess`
classification appears as an abstract function present exactly when
deduplication was enabled at `Initialize` time. -/

/-- An error event: the fields `TryPublish` logging reads. -/
structure ErrorEvent where
  component : String
  category : String
  message : String
  deriving DecidableEq, Repr

/-- The counters of `EventBusStats` that `TryPublish` touches. -/
structure EventBusStats where
  eventsReceived : Nat
  eventsDropped : Nat
  eventsSuppressed : Nat
  fastPathHits : Nat
  deriving DecidableEq, Repr

/-- The `EventBus` state visible to `TryPublish`. -/
structure EventBus where
  hasActiveConsumers : Bool
  initialized : Bool
  running : Bool
  consumers : Nat
  deduplicator : Option (ErrorEvent → Bool)
  errorEventChan : List ErrorEvent
  bufferSize : Nat
  stats : EventBusStats

/-- `TryPublish`: fast path on the atomic flag, initialized/running check,
consumer check under the mutex, optional deduplication (a suppressed
duplicate reports `true`), then a non-blocking send that drops the event and
counts it when the channel is full. -/
def TryPublish (eb : EventBus) (event : ErrorEvent) : Bool × EventBus :=
  if !eb.hasActiveConsumers then
    (false, { eb with stats := { eb.stats with fastPathHits := eb.stats.fastPathHits + 1 } })
  else if !eb.initialized || !eb.running then
    (false, eb)
  else if eb.consumers = 0 then
    (false, { eb with stats := { eb.stats with fastPathHits := eb.stats.fastPathHits + 1 } })
  else
    match eb.deduplicator with
    | some shouldProcess =>
        if !shouldProcess event then
          (true, { eb with stats :=
            { eb.stats with eventsSuppressed := eb.stats.eventsSuppressed + 1 } })
        else
          if eb.errorEventChan.length < eb.bufferSize then
            (true, { eb with
              errorEventChan := eb.errorEventChan ++ [event]
              stats := { eb.stats with eventsReceived := eb.stats.eventsReceived + 1 } })
          else
            (false, { eb with stats :=
              { eb.stats with eventsDropped := eb.stats.eventsDropped + 1 } })
    | none =>
        if eb.errorEventChan.length < eb.bufferSize then
          (true, { eb with
            errorEventChan := eb.errorEventChan ++ [event]
            stats := { eb.stats with eventsReceived := eb.stats.eventsReceived + 1 } })
        else
          (false, { eb with stats :=
            { eb.stats with eventsDropped := eb.stats.eventsDropped + 1 } })

/-- Claim C8: `TryPublish` returns false with the channel untouched when the
atomic fast-path flag shows no consumers, and likewise when the consumer
count is zero; when the channel is full (and the event is not suppressed) the
event is dropped — the channel is unchanged and only the dropped-events
counter is incremented — instead of the publish blocking. -/
theorem claim8_tryPublish_nonblocking (eb : EventBus) (event : ErrorEvent) :
    (eb.hasActiveConsumers = false →
      (TryPublish eb event).1 = false ∧
      ((TryPublish eb event).2).errorEventChan = eb.errorEventChan)
    ∧ (eb.hasActiveConsumers = true → eb.initialized = true → eb.running = true →
        eb.consumers = 0 →
        (TryPublish eb event).1 = false ∧
        ((TryPublish eb event).2).errorEventChan = eb.errorEventChan)
    ∧ (eb.hasActiveConsumers = true → eb.initialized = true → eb.running = true →
        eb.consumers ≠ 0 →
        (∀ shouldProcess, eb.deduplicator = some shouldProcess →
          shouldProcess event = true) →
        ¬ eb.errorEventChan.length < eb.bufferSize →
        (TryPublish eb event).1 = false ∧
        ((TryPublish eb event).2).errorEventChan = eb.errorEventChan ∧
        ((TryPublish eb event).2).stats.eventsDropped = eb.stats.eventsDropped + 1 ∧
        ((TryPublish eb event).2).stats.eventsSuppressed = eb.stats.eventsSuppressed) := by
  refine ⟨?_, ?_, ?_⟩
  · intro h
    simp [TryPublish, h]
  · intro h hi hr hc
    simp [TryPublish, h, hi, hr, hc]
  · intro h hi hr hc hdedup hfull
    cases hd : eb.deduplicator with
    | none => simp [TryPublish, h, hi, hr, hc, hd, hfull]
    | some shouldProcess =>
      have hsp := hdedup shouldProcess hd
      simp [TryPublish, h, hi, hr, hc, hd, hsp, hfull]

/-- A full one-slot bus with one consumer, deduplication off. -/
def fullBus : EventBus :=
  { hasActiveConsumers := true, initialized := true, running := true, consumers := 1,
    deduplicator := none,
    errorEventChan := [{ component := "a", category := "b", message := "c" }],
    bufferSize := 1,
    stats := { eventsReceived := 1, eventsDropped := 0, eventsSuppressed := 0,
               fastPathHits := 0 } }

/-- A concrete error event. -/
def event0 : ErrorEvent := { component := "x", category := "y", message := "z" }

/-- Claim C8, witness: publishing onto the full one-slot bus is refused, the
channel is unchanged, and the dropped counter is incremented. -/
theorem claim8_witness :
    (TryPublish fullBus event0).1 = false ∧
    ((TryPublish fullBus event0).2).errorEventChan = fullBus.errorEventChan ∧
    ((TryPublish fullBus event0).2).stats.eventsDropped = fullBus.stats.eventsDropped + 1 ∧
    ((TryPublish fullBus event0).2).stats.eventsSuppressed = fullBus.stats.eventsSuppressed := by
  have h := (claim8_tryPublish_nonblocking fullBus event0).2.2 rfl rfl rfl (by decide)
    (fun sp hsp => by simp [fullBus] at hsp) (by decide)
  exact ⟨h.1, h.2.1, h.2.2.1, h.2.2.2⟩

/-! ### Claim C10 -/

/-- Claim C10: when the deduplicator is present (deduplication enabled at
`Initialize`) and classifies the event as a duplicate (`ShouldProcess` false),
`TryPublish` reports true even though the event is never enqueued: the
channel and the received and dropped counters are unchanged, and only the
suppressed-events counter is incremented. -/
theorem claim10_dedup_suppression (eb : EventBus) (event : ErrorEvent)
    (shouldProcess : ErrorEvent → Bool)
    (h : eb.hasActiveConsumers = true) (hi : eb.initialized = true) (hr : eb.running = true)
    (hc : eb.consumers ≠ 0) (hd : eb.deduplicator = some shouldProcess)
    (hdup : shouldProcess event = false) :
    (TryPublish eb event).1 = true ∧
    ((TryPublish eb event).2).errorEventChan = eb.errorEventChan ∧
    ((TryPublish eb event).2).stats.eventsSuppressed = eb.stats.eventsSuppressed + 1 ∧
    ((TryPublish eb event).2).stats.eventsDropped = eb.stats.eventsDropped ∧
    ((TryPublish eb event).2).stats.eventsReceived = eb.stats.eventsReceived := by
  simp [TryPublish, h, hi, hr, hc, hd, hdup]

/-- An empty bus with one consumer and a deduplicator that classifies every
event as a duplicate. -/
def dedupBus : EventBus :=
  { hasActiveConsumers := true, initialized := true, running := true, consumers := 1,
    deduplicator := some (fun _ => false),
    errorEventChan := [], bufferSize := 4,
    stats := { eventsReceived := 0, eventsDropped := 0, eventsSuppressed := 0,
               fastPathHits := 0 } }

/-- Claim C10, witness: a suppressed duplicate reports true, enqueues nothing
and bumps only the suppressed counter. -/
theorem claim10_witness :
    (TryPublish dedupBus event0).1 = true ∧
    ((TryPublish dedupBus event0).2).errorEventChan = [] ∧
    ((TryPublish dedupBus event0).2).stats.eventsSuppressed = 1 ∧
    ((TryPublish dedupBus event0).2).stats.eventsDropped = 0 ∧
    ((TryPublish dedupBus event0).2).stats.eventsReceived = 0 :=
  claim10_dedup_suppression dedupBus event0 (fun _ => false)
    rfl rfl rfl (by decide) rfl rfl

/-! ### Composite action (spec §4.7)

The `CompositeAction` implementation itself is not among the provided
sources — only its tests are — so the executor below is modelled from the
spec and validated against the behaviors those tests pin down (sequential
order, stop on failure, nil/empty success). -/

/-- How a sub-action behaves when run: return nil, return an error, or panic. -/
inductive SubOutcome
  | ok
  | err
  | panicked
  deriving DecidableEq, Repr

/-- A sub-action of a composite: its running time and its outcome. -/
structure SubAction where
  duration : Int
  outcome : SubOutcome
  deriving DecidableEq, Repr

/-- The record of one sub-action run: its position and its start and end
times. -/
structure ExecRecord where
  index : Nat
  startTime : Int
  endTime : Int
  deriving DecidableEq, Repr

/-- The result of a composite run. -/
inductive CompositeResult
  | ok
  | errAt (i : Nat)
  | panicAt (i : Nat)
  | timedOut (i : Nat)
  deriving DecidableEq, Repr

/-- Modelled from the spec: the sequential core of `CompositeAction.Execute`
(the implementation is absent from the provided sources; spec §4.7).  Before
each sub-action the deadline is checked; a sub-action that errors or panics
(panics are caught and converted to a composite error) stops the run; an ok
sub-action advances the clock by its duration and the next one starts. -/
def compositeGo (deadline : Int) : List SubAction → Nat → Int →
    CompositeResult × List ExecRecord
  | [], _, _ => (.ok, [])
  | a :: rest, i, clock =>
    if deadline ≤ clock then (.timedOut i, [])
    else
      let record : ExecRecord := { index := i, startTime := clock, endTime := clock + a.duration }
      match a.outcome with
      | .err => (.errAt i, [record])
      | .panicked => (.panicAt i, [record])
      | .ok =>
          let rest' := compositeGo deadline rest (i + 1) (clock + a.duration)
          (rest'.1, record :: rest'.2)

/-- Modelled from the spec: `CompositeAction.Execute` with a nil composite or
nil `Actions` slice (`none`) succeeding immediately, and otherwise running
the sub-actions in declared order under the single top-level timeout. -/
def CompositeActionExecute (actions : Option (List SubAction)) (timeout startAt : Int) :
    CompositeResult × List ExecRecord :=
  match actions with
  | none => (.ok, [])
  | some acts => compositeGo (startAt + timeout) acts 0 startAt

theorem compositeGo_records (deadline : Int) (acts : List SubAction) (i : Nat) (clock : Int) :
    (∀ a ∈ acts, 0 ≤ a.duration) →
    ∀ r ∈ (compositeGo deadline acts i clock).2, i ≤ r.index ∧ clock ≤ r.startTime := by
  induction acts generalizing i clock with
  | nil =>
    intro _ r hr
    simp [compositeGo] at hr
  | cons a rest ih =>
    intro hdur r hr
    have hdur0 : 0 ≤ a.duration := hdur a (List.mem_cons_self ..)
    have hdurrest : ∀ a' ∈ rest, 0 ≤ a'.duration :=
      fun a' ha' => hdur a' (List.mem_cons_of_mem _ ha')
    unfold compositeGo at hr
    by_cases hd : deadline ≤ clock
    · rw [if_pos hd] at hr
      simp at hr
    · rw [if_neg hd] at hr
      cases ho : a.outcome
      · simp only [ho] at hr
        rcases List.mem_cons.mp hr with h | h
        · subst h
          exact ⟨Nat.le_refl i, le_refl clock⟩
        · obtain ⟨hi, hc⟩ := ih (i + 1) (clock + a.duration) hdurrest r h
          exact ⟨Nat.le_of_succ_le hi, by omega⟩
      · simp only [ho] at hr
        simp at hr
        subst hr
        exact ⟨Nat.le_refl i, le_refl clock⟩
      · simp only [ho] at hr
        simp at hr
        subst hr
        exact ⟨Nat.le_refl i, le_refl clock⟩

theorem compositeGo_pairwise (deadline : Int) (acts : List SubAction) (i : Nat) (clock : Int)
    (hdur : ∀ a ∈ acts, 0 ≤ a.duration) :
    ((compositeGo deadline acts i clock).2).Pairwise
      (fun r1 r2 => r1.index < r2.index ∧ r1.endTime ≤ r2.startTime) := by
  induction acts generalizing i clock with
  | nil => simp [compositeGo]
  | cons a rest ih =>
    have hdurrest : ∀ a' ∈ rest, 0 ≤ a'.duration :=
      fun a' ha' => hdur a' (List.mem_cons_of_mem _ ha')
    unfold compositeGo
    by_cases hd : deadline ≤ clock
    · rw [if_pos hd]
      simp
    · rw [if_neg hd]
      cases ho : a.outcome
      · simp only
        refine List.Pairwise.cons ?_ (ih (i + 1) (clock + a.duration) hdurrest)
        intro r hr
        obtain ⟨hi, hc⟩ := compositeGo_records deadline rest (i + 1) (clock + a.duration)
          hdurrest r hr
        exact ⟨Nat.lt_of_lt_of_le (Nat.lt_succ_self i) hi, hc⟩
      · simp
      · simp

theorem compositeGo_result_ge (deadline : Int) (acts : List SubAction) (i : Nat) (clock : Int)
    (j : Nat)
    (hj : (compositeGo deadline acts i clock).1 = .errAt j ∨
          (compositeGo deadline acts i clock).1 = .panicAt j ∨
          (compositeGo deadline acts i clock).1 = .timedOut j) :
    i ≤ j := by
  induction acts generalizing i clock with
  | nil => simp [compositeGo] at hj
  | cons a rest ih =>
    unfold compositeGo at hj
    by_cases hd : deadline ≤ clock
    · rw [if_pos hd] at hj
      simp at hj
      omega
    · rw [if_neg hd] at hj
      cases ho : a.outcome
      · simp only [ho] at hj
        exact Nat.le_of_succ_le (ih (i + 1) (clock + a.duration) hj)
      · simp [ho] at hj
        omega
      · simp [ho] at hj
        omega

theorem compositeGo_stops (deadline : Int) (acts : List SubAction) (i : Nat) (clock : Int)
    (j : Nat) :
    ((compositeGo deadline acts i clock).1 = .errAt j ∨
     (compositeGo deadline acts i clock).1 = .panicAt j ∨
     (compositeGo deadline acts i clock).1 = .timedOut j) →
    ∀ r ∈ (compositeGo deadline acts i clock).2, r.index ≤ j := by
  induction acts generalizing i clock with
  | nil =>
    intro _ r hr
    simp [compositeGo] at hr
  | cons a rest ih =>
    intro hj r hr
    unfold compositeGo at hj hr
    by_cases hd : deadline ≤ clock
    · rw [if_pos hd] at hr
      simp at hr
    · rw [if_neg hd] at hj hr
      cases ho : a.outcome
      · simp only [ho] at hj hr
        rcases List.mem_cons.mp hr with h | h
        · subst h
          simp only
          have hji := compositeGo_result_ge deadline rest (i + 1) (clock + a.duration) j hj
          omega
        · exact ih (i + 1) (clock + a.duration) hj r h
      · simp [ho] at hj hr
        subst hr
        simp
        omega
      · simp [ho] at hj hr
        subst hr
        simp
        omega

/-- Claim C9 (spec-modelled): within a composite action whose sub-action
durations are non-negative, the execution records are pairwise ordered — a
later sub-action starts only after an earlier one has returned; if the run
ends in an error, a caught panic, or a timeout at position `j`, no sub-action
after `j` ever starts; and a nil composite, a nil `Actions` slice, or an
empty `Actions` slice succeeds immediately with no sub-action run. -/
theorem claim9_composite_sequential (actions : Option (List SubAction))
    (timeout startAt : Int) (hdur : ∀ a ∈ actions.getD [], 0 ≤ a.duration) :
    ((CompositeActionExecute actions timeout startAt).2).Pairwise
      (fun r1 r2 => r1.index < r2.index ∧ r1.endTime ≤ r2.startTime)
    ∧ (∀ j, ((CompositeActionExecute actions timeout startAt).1 = .errAt j ∨
          (CompositeActionExecute actions timeout startAt).1 = .panicAt j ∨
          (CompositeActionExecute actions timeout startAt).1 = .timedOut j) →
        ∀ r ∈ (CompositeActionExecute actions timeout startAt).2, r.index ≤ j)
    ∧ CompositeActionExecute none timeout startAt = (.ok, [])
    ∧ CompositeActionExecute (some []) timeout startAt = (.ok, []) := by
  refine ⟨?_, ?_, rfl, rfl⟩
  · cases actions with
    | none => simp [CompositeActionExecute]
    | some acts =>
      exact compositeGo_pairwise (startAt + timeout) acts 0 startAt (by simpa using hdur)
  · intro j hj r hr
    cases actions with
    | none => simp [CompositeActionExecute] at hr
    | some acts =>
      exact compositeGo_stops (startAt + timeout) acts 0 startAt j hj r hr

/-- A composite whose second sub-action fails. -/
def compActions0 : List SubAction :=
  [{ duration := 5, outcome := .ok }, { duration := 3, outcome := .err },
   { duration := 2, outcome := .ok }]

/-- Claim C9, witness: the sequential theorem applied to a concrete composite
whose second sub-action errors — the two started sub-actions are ordered and
the third never starts. -/
theorem claim9_witness :
    ((CompositeActionExecute (some compActions0) 100 0).2).Pairwise
      (fun r1 r2 => r1.index < r2.index ∧ r1.endTime ≤ r2.startTime) ∧
    (∀ r ∈ (CompositeActionExecute (some compActions0) 100 0).2, r.index ≤ 1) ∧
    CompositeActionExecute (none : Option (List SubAction)) 100 0 = (.ok, []) := by
  have h := claim9_composite_sequential (some compActions0) 100 0 (by decide)
  exact ⟨h.1, h.2.1 1 (Or.inl (by decide)), h.2.2.1⟩

end BirdnetGo
